import Mathlib

/-!
# tizz98/eli: the JWT middleware of package `auth`, with `crypto` and `slice`

A shallow embedding of `auth/jwtmiddleware.go`, `auth/http.go`, `crypto/encryption.go` and
`slice/slice.go`.

Modelling conventions.
* Go strings are Lean `String`s.
* A Go `error` received from a collaborator is a `GoError` (its `Error()` text); the
  errors `CheckJWT` builds itself are `CheckError`s.
* Nilable Go values (function values, interfaces) are `Option`s; calling a nil
  function value is a run-time panic, which the model records as `Ret.panicked`.
* `jwt.Parse` (github.com/dgrijalva/jwt-go) is library code: it is a parameter of
  `CheckJWT`. It never returns a nil token together with a nil error.
* Collaborators (extractor, error handler, next handler) read the request and write to
  the response; they do not modify the request they are handed.
* Every call `CheckJWT` makes to a collaborator is recorded in a trace of `Event`s.
-/

namespace Eli

/-! ## Values of the Go runtime and of the libraries -/

/-- An `error` value produced by a collaborator; `Error()` returns `text`. -/
structure GoError where
  text : String
  deriving DecidableEq, Repr

/-- A value of type `interface{}` as `CheckJWT` observes it in a token header:
compared with a string by `!=` and rendered by the verb `%s`. -/
inductive Iface where
  /-- Represents the nil interface (the key is missing from the map). -/
  | nil
  /-- Represents a value of dynamic type `string`. -/
  | str (s : String)
  /-- Represents a value of another dynamic type; `shown` is its rendering under `%s`. -/
  | other (shown : String)
  deriving DecidableEq, Repr

/-- Rendering of `fmt.Sprintf("%s", v)` for an `interface{}` operand. -/
def Iface.fmtS : Iface → String
  | .nil => "%!s(<nil>)"
  | .str s => s
  | .other shown => shown

/-- The fields of `*jwt.Token` read by `CheckJWT`: `Raw`, `Header`, `Valid`. The header is
a `map[string]interface{}`, kept as an association list. -/
structure Token where
  Raw : String
  Header : List (String × Iface)
  Valid : Bool
  deriving DecidableEq, Repr

/-- Map indexing `parsed.Header[key]`: the nil interface when the key is missing. -/
def Token.headerGet (t : Token) (key : String) : Iface :=
  match t.Header.lookup key with
  | some v => v
  | none => .nil

/-- A `jwt.SigningMethod`, as far as `CheckJWT` uses it: the result of `Alg()`. -/
structure SigningMethod where
  Alg : String
  deriving DecidableEq, Repr

/-- A `jwt.Keyfunc`: from the parsed, unverified token to the key material or an error. -/
structure Keyfunc where
  run : Token → Except GoError String

/-- What `jwt.Parse` hands back to `CheckJWT`. -/
inductive ParseResult where
  /-- Stands for `(token, nil)` with a non-nil token. -/
  | ok (t : Token)
  /-- Stands for `(_, err)` with `err != nil`; `CheckJWT` does not read the token then. -/
  | fail (e : GoError)
  deriving DecidableEq, Repr

/-- Type of `jwt.Parse(tokenString, keyFunc)`. -/
abbrev JwtParse := String → Option Keyfunc → ParseResult

/-! ## `auth/http.go`: the request context -/

/-- Keys of a `context.Context`: the package-private pointer `jwtContextKey`, or a key of
some other package. -/
inductive CtxKey where
  | jwtContextKey
  | foreign (name : String)
  deriving DecidableEq, Repr

/-- Values stored in a `context.Context`: a non-nil `*jwt.Token`, or something else. -/
inductive CtxVal where
  | token (t : Token)
  | foreign (v : String)
  deriving DecidableEq, Repr

/-- A `context.Context` as the chain of its `WithValue` layers, innermost layer last. -/
abbrev Context := List (CtxKey × CtxVal)

/-- Models `context.WithValue(ctx, key, val)`. -/
def Context.WithValue (ctx : Context) (key : CtxKey) (val : CtxVal) : Context :=
  (key, val) :: ctx

/-- Models `ctx.Value(key)`: the value of the outermost layer with that key. -/
def Context.Value (ctx : Context) (key : CtxKey) : Option CtxVal :=
  ctx.lookup key

/-- Embeds `JWTFromContext`: the token under `jwtContextKey` if the value there is a
`*jwt.Token`, otherwise nil. -/
def JWTFromContext (ctx : Context) : Option Token :=
  match ctx.Value .jwtContextKey with
  | some (.token t) => some t
  | _ => none

/-! ## `net/http`: requests and the response recorder -/

/-- The parts of `*http.Request` the package reads or writes. `Header` and `Query` are
`map[string][]string` with canonical keys. -/
structure Request where
  Method : String
  Header : List (String × List String)
  Query : List (String × List String)
  ctx : Context
  deriving DecidableEq, Repr

/-- Models `r.WithContext(ctx)`. -/
def Request.WithContext (r : Request) (ctx : Context) : Request :=
  { r with ctx := ctx }

/-- Models `h.Get(key)` of `http.Header` and `url.Values` for a canonical key: the first
value stored under the key, or the empty string. -/
def valuesGet (h : List (String × List String)) (key : String) : String :=
  match h.lookup key with
  | some (v :: _) => v
  | _ => ""

/-- The `httptest.ResponseRecorder` behind an `http.ResponseWriter`: status code (200
until a header is written), body, and whether the header has been written. -/
structure ResponseRecorder where
  Code : Nat
  Body : String
  wroteHeader : Bool
  deriving DecidableEq, Repr

/-- Models `httptest.NewRecorder()`. -/
def NewRecorder : ResponseRecorder := ⟨200, "", false⟩

/-- Models `w.WriteHeader(code)`: only the first call sets the status. -/
def ResponseRecorder.WriteHeader (w : ResponseRecorder) (code : Nat) : ResponseRecorder :=
  if w.wroteHeader then w else { w with Code := code, wroteHeader := true }

/-- Models `w.Write(buf)`: writes the header with status 200 if none was written, then
appends to the body. -/
def ResponseRecorder.Write (w : ResponseRecorder) (buf : String) : ResponseRecorder :=
  let w1 := w.WriteHeader 200
  { w1 with Body := w1.Body ++ buf }

/-- Models `http.Error(w, error, code)`: the status, then the text and a newline. -/
def httpError (w : ResponseRecorder) (error : String) (code : Nat) : ResponseRecorder :=
  (w.WriteHeader code).Write (error ++ "\n")

/-- The constant `http.StatusUnauthorized`. -/
def StatusUnauthorized : Nat := 401

/-! ## `auth/jwtmiddleware.go` -/

/-- Embeds `type errorHandler func(w http.ResponseWriter, r *http.Request, err string)`. -/
abbrev errorHandler := ResponseRecorder → Request → String → ResponseRecorder

/-- Embeds `type TokenExtractor func(r *http.Request) (string, error)`. -/
abbrev TokenExtractor := Request → String × Option GoError

/-- Embeds `type JWTOptions struct`. -/
structure JWTOptions where
  ValidationKeyGetter : Option Keyfunc
  CredentialsOptional : Bool
  ErrorHandler : Option errorHandler
  Extractor : Option TokenExtractor
  EnableAuthOnOptions : Bool
  SigningMethod : Option SigningMethod

/-- Embeds `type JWTMiddleware struct`. -/
structure JWTMiddleware where
  Options : JWTOptions

/-- Embeds `OnError`. -/
def OnError : errorHandler :=
  fun w _ err => httpError w err StatusUnauthorized

/-- Models `unicode.IsSpace`. -/
def isSpace (c : Char) : Bool :=
  c = '\t' || c = '\n' || c.toNat = 0x0B || c.toNat = 0x0C || c = '\r' || c = ' '
    || c.toNat = 0x85 || c.toNat = 0xA0 || c.toNat = 0x1680
    || (0x2000 ≤ c.toNat && c.toNat ≤ 0x200A)
    || c.toNat = 0x2028 || c.toNat = 0x2029 || c.toNat = 0x202F
    || c.toNat = 0x205F || c.toNat = 0x3000

/-- Loop of `strings.Fields`: `cur` is the field being read, in reverse. -/
def fieldsAux : List Char → List Char → List String
  | [], cur => if cur = [] then [] else [String.mk cur.reverse]
  | c :: cs, cur =>
    if isSpace c then
      if cur = [] then fieldsAux cs [] else String.mk cur.reverse :: fieldsAux cs []
    else fieldsAux cs (c :: cur)

/-- Models `strings.Fields`: the maximal runs of non-space characters. -/
def Fields (s : String) : List String := fieldsAux s.toList []

/-- Models `strings.ToLower`, on the letters A to Z. No other code point has a lower-case
form among the letters of "bearer", the only string the result is compared with. -/
def ToLower (s : String) : String := String.mk (s.toList.map Char.toLower)

/-- Embeds `FromAuthHeader`. -/
def FromAuthHeader : TokenExtractor := fun r =>
  let authHeader := valuesGet r.Header "Authorization"
  if authHeader = "" then
    ("", none)
  else
    let authHeaderParts := Fields authHeader
    match authHeaderParts with
    | [scheme, tok] =>
      if ToLower scheme ≠ "bearer" then
        ("", some ⟨"authorization header format must be Bearer \x7btoken\x7d"⟩)
      else (tok, none)
    | _ => ("", some ⟨"authorization header format must be Bearer \x7btoken\x7d"⟩)

/-- The `error` values `CheckJWT` returns. -/
inductive CheckError where
  /-- Stands for `errors.Wrap(cause, tag)`. -/
  | wrap (cause : GoError) (tag : String)
  /-- Stands for `fmt.Errorf(format)` with no operands. -/
  | errorf (format : String)
  deriving DecidableEq, Repr

/-- How an invocation ends: it returns an `error` (nil or not), or it panics. -/
inductive Ret where
  | returned (err : Option CheckError)
  | panicked
  deriving DecidableEq, Repr

/-- The calls made to collaborators, in order. -/
inductive Event where
  /-- Records `m.Options.Extractor(r)`. -/
  | extract
  /-- Records `jwt.Parse(token, m.Options.ValidationKeyGetter)`. -/
  | parse (token : String)
  /-- Records `m.Options.ErrorHandler(w, r, msg)`. -/
  | handler (msg : String)
  /-- Records `next.ServeHTTP(w, r)`. -/
  | next (r : Request)
  deriving DecidableEq, Repr

/-- The state after an invocation: how it ended, the response, the request (which
`CheckJWT` overwrites through its pointer) and the calls made. -/
structure Result where
  ret : Ret
  w : ResponseRecorder
  r : Request
  trace : List Event
  deriving DecidableEq, Repr

/-- The statement pair `m.Options.ErrorHandler(w, r, msg); return err`. Calling a nil
handler panics. -/
def failWith (m : JWTMiddleware) (w : ResponseRecorder) (r : Request) (trace : List Event)
    (msg : String) (err : CheckError) : Result :=
  match m.Options.ErrorHandler with
  | none => ⟨.panicked, w, r, trace⟩
  | some h => ⟨.returned (some err), h w r msg, r, trace ++ [.handler msg]⟩

/-- The test `m.Options.SigningMethod != nil && m.Options.SigningMethod.Alg() !=
parsed.Header["alg"]` of `CheckJWT`: when it holds, the `message` built by `fmt.Sprintf`. -/
def algMismatch (m : JWTMiddleware) (parsed : Token) : Option String :=
  match m.Options.SigningMethod with
  | none => none
  | some sm =>
    if Iface.str sm.Alg ≠ parsed.headerGet "alg" then
      some ("Expected " ++ sm.Alg ++ " signing method but token specified "
        ++ (parsed.headerGet "alg").fmtS)
    else none

/-- Embeds `(*JWTMiddleware).CheckJWT`. -/
def CheckJWT (jwtParse : JwtParse) (m : JWTMiddleware) (w : ResponseRecorder)
    (r : Request) : Result :=
  if !m.Options.EnableAuthOnOptions && r.Method == "OPTIONS" then
    ⟨.returned none, w, r, []⟩
  else
    match m.Options.Extractor with
    | none => ⟨.panicked, w, r, []⟩
    | some extractor =>
      match extractor r with
      | (_, some err) =>
        failWith m w r [.extract] err.text (.wrap err "error extracting token")
      | (token, none) =>
        if token == "" then
          if m.Options.CredentialsOptional then
            ⟨.returned none, w, r, [.extract]⟩
          else
            failWith m w r [.extract] "Required authorization token not found"
              (.errorf "required authorization token not found")
        else
          match jwtParse token m.Options.ValidationKeyGetter with
          | .fail err =>
            failWith m w r [.extract, .parse token] err.text
              (.wrap err "error parsing token")
          | .ok parsed =>
            match algMismatch m parsed with
            | some message =>
              failWith m w r [.extract, .parse token] message (.errorf message)
            | none =>
              if !parsed.Valid then
                failWith m w r [.extract, .parse token] "The token is not valid"
                  (.errorf "invalid token")
              else
                ⟨.returned none, w,
                  r.WithContext (r.ctx.WithValue .jwtContextKey (.token parsed)),
                  [.extract, .parse token]⟩

/-- An `http.Handler`, by its effect on the response. -/
abbrev HttpHandler := ResponseRecorder → Request → ResponseRecorder

/-- Embeds `(*JWTMiddleware).Handler`: the handler `m.Handler()(next)`. Its `ret` is
`returned none` when the handler function returns, `panicked` when `CheckJWT` panicked. -/
def Handler (jwtParse : JwtParse) (m : JWTMiddleware) (next : HttpHandler)
    (w : ResponseRecorder) (r : Request) : Result :=
  let res := CheckJWT jwtParse m w r
  match res.ret with
  | .panicked => res
  | .returned (some _) => { res with ret := .returned none }
  | .returned none =>
    ⟨.returned none, next res.w res.r, res.r, res.trace ++ [.next res.r]⟩

/-- The messages passed to the error handler, in order. -/
def handlerCalls : List Event → List String
  | [] => []
  | .handler msg :: es => msg :: handlerCalls es
  | _ :: es => handlerCalls es

/-- The requests passed to `next.ServeHTTP`, in order. -/
def nextCalls : List Event → List Request
  | [] => []
  | .next r :: es => r :: nextCalls es
  | _ :: es => nextCalls es

/-- The OPTIONS rule of `CheckJWT`: the request is let through unchecked. -/
def bypassed (m : JWTMiddleware) (r : Request) : Prop :=
  m.Options.EnableAuthOnOptions = false ∧ r.Method = "OPTIONS"

instance (m : JWTMiddleware) (r : Request) : Decidable (bypassed m r) := by
  unfold bypassed; infer_instance

/-! ## Concrete inputs -/

/-- An extractor that finds the token `tok`. -/
def extractorOf (tok : String) : TokenExtractor := fun _ => (tok, none)

/-- A token with the given `alg` header and validity flag. -/
def tokenWith (raw alg : String) (valid : Bool) : Token :=
  ⟨raw, [("typ", .str "JWT"), ("alg", .str alg)], valid⟩

/-- A parser outcome for tests: every token string parses to `t`. -/
def parseTo (t : Token) : JwtParse := fun _ _ => .ok t

/-- A parser outcome for tests: every token string is refused with `e`. -/
def parseFailing (e : GoError) : JwtParse := fun _ _ => .fail e

/-- The options of the test suite (`SigningMethodRS512`), with the defaults that
`NewJWTMiddleware` fills in, and the extractor given. -/
def testMiddleware (ex : TokenExtractor) (optional authOnOptions : Bool) : JWTMiddleware :=
  ⟨⟨none, optional, some OnError, some ex, authOnOptions, some ⟨"RS512"⟩⟩⟩

/-- A middleware value built directly, with no signing method set. -/
def unpinnedMiddleware (ex : TokenExtractor) : JWTMiddleware :=
  ⟨⟨none, false, some OnError, some ex, false, none⟩⟩

/-- Models `httptest.NewRequest(method, "https://example.com", nil)`. -/
def NewRequest (method : String) : Request := ⟨method, [], [], []⟩

/-- A next handler that writes "ok". -/
def okHandler : HttpHandler := fun w _ => w.Write "ok"

/-! ## `auth/jwtmiddleware.go`: construction and the extractors -/

/-- The zero value `JWTOptions{}`. -/
def JWTOptions.zero : JWTOptions := ⟨none, false, none, none, false, none⟩

/-- Embeds `NewJWTMiddleware`. The variadic `options` is a list; `Except.error msg` stands
for `panic(msg)`. -/
def NewJWTMiddleware (options : List JWTOptions) : Except String JWTMiddleware :=
  let opts := match options with
    | [] => JWTOptions.zero
    | first :: _ => first
  let opts := if opts.ErrorHandler.isNone then { opts with ErrorHandler := some OnError }
    else opts
  let opts := if opts.Extractor.isNone then { opts with Extractor := some FromAuthHeader }
    else opts
  if opts.SigningMethod.isNone then .error "signing method must be set"
  else .ok ⟨opts⟩

/-- Embeds `FromParameter`. -/
def FromParameter (param : String) : TokenExtractor := fun r =>
  (valuesGet r.Query param, none)

/-- The loop of `FromFirst`, with the number of extractors it has called. -/
def fromFirstLoop (r : Request) : List TokenExtractor → (String × Option GoError) × Nat
  | [] => (("", none), 0)
  | ex :: rest =>
    match ex r with
    | (_, some err) => (("", some err), 1)
    | (token, none) =>
      if token ≠ "" then ((token, none), 1)
      else ((fromFirstLoop r rest).1, (fromFirstLoop r rest).2 + 1)

/-- Embeds `FromFirst`. The variadic `extractors` is a list. -/
def FromFirst (extractors : List TokenExtractor) : TokenExtractor := fun r =>
  (fromFirstLoop r extractors).1

/-- The scan that the description of `FromFirst` spells out: the outcome of the first
extractor that reports an error or finds a token, and no token if there is none. -/
def firstDeciding (r : Request) (extractors : List TokenExtractor) : String × Option GoError :=
  match extractors.find? (fun ex => (ex r).2.isSome || (ex r).1 ≠ "") with
  | none => ("", none)
  | some ex =>
    match (ex r).2 with
    | some err => ("", some err)
    | none => ((ex r).1, none)

/-! ## `crypto/encryption.go`

Byte slices are lists of natural numbers below 256. The AES block cipher, the random
source and `encoding/base64` are library code: the cipher is a parameter, the outcome of
reading the random source is an argument, and base64 is modelled after RFC 4648 as
`base64.StdEncoding` implements it. -/

/-- A `[]byte`. -/
abbrev Bytes := List Nat

/-- The constant `aes.BlockSize`. -/
def aesBlockSize : Nat := 16

/-- A `cipher.Block` with block size `aes.BlockSize`: `Encrypt` maps a block to a block. -/
structure Block where
  Encrypt : Bytes → Bytes
  size : ∀ src, (Encrypt src).length = aesBlockSize

/-- The errors `Encrypt` and `Decrypt` return, and the panic of an out-of-range slice. -/
inductive CryptoError where
  /-- Stands for `aes.KeySizeError(n)`. -/
  | keySize (n : Nat)
  /-- Stands for the error of `io.ReadFull(rand.Reader, iv)`. -/
  | rand (e : GoError)
  /-- Stands for `base64.CorruptInputError`. -/
  | corruptInput
  /-- Stands for a run-time panic. -/
  | panicked (msg : String)
  deriving DecidableEq, Repr

/-- Models `aes.NewCipher(key)` over the AES family `aes`: the key must have 16, 24 or 32
bytes. -/
def aesNewCipher (aes : Bytes → Block) (key : Bytes) : Except CryptoError Block :=
  if key.length = 16 ∨ key.length = 24 ∨ key.length = 32 then .ok (aes key)
  else .error (.keySize key.length)

/-- The alphabet of `base64.StdEncoding`. -/
def encodeStd : List Nat :=
  "ABCDEFGHIJKLMNOPQRSTUVWXYZabcdefghijklmnopqrstuvwxyz0123456789+/".toList.map Char.toNat

/-- The padding character `=` of `base64.StdEncoding`. -/
def padChar : Nat := 61

/-- The character `enc.encode[i]`. -/
def b64Char (i : Nat) : Nat := encodeStd.getD i 0

/-- The entry `enc.decodeMap[c]`: the index of `c` in the alphabet, if it is there. -/
def b64Val (c : Nat) : Option Nat :=
  if c ∈ encodeStd then some (encodeStd.indexOf c) else none

/-- Models `base64.StdEncoding.EncodeToString`: three bytes give four characters; a rest
of one or two bytes is padded. -/
def base64Encode : Bytes → Bytes
  | a :: b :: c :: rest =>
    let val := a * 65536 + b * 256 + c
    b64Char (val / 262144 % 64) :: b64Char (val / 4096 % 64) :: b64Char (val / 64 % 64)
      :: b64Char (val % 64) :: base64Encode rest
  | [a, b] =>
    let val := a * 65536 + b * 256
    [b64Char (val / 262144 % 64), b64Char (val / 4096 % 64), b64Char (val / 64 % 64), padChar]
  | [a] =>
    let val := a * 65536
    [b64Char (val / 262144 % 64), b64Char (val / 4096 % 64), padChar, padChar]
  | [] => []

/-- Decoding of the quanta of four characters; padding is accepted in the last quantum
only. -/
def decodeQuanta : Bytes → Except CryptoError Bytes
  | c0 :: c1 :: c2 :: c3 :: rest =>
    match b64Val c0, b64Val c1, b64Val c2, b64Val c3 with
    | some v0, some v1, some v2, some v3 =>
      let val := v0 * 262144 + v1 * 4096 + v2 * 64 + v3
      match decodeQuanta rest with
      | .ok out => .ok (val / 65536 % 256 :: val / 256 % 256 :: val % 256 :: out)
      | .error e => .error e
    | some v0, some v1, some v2, none =>
      let val := v0 * 262144 + v1 * 4096 + v2 * 64
      if c3 = padChar ∧ rest = [] then .ok [val / 65536 % 256, val / 256 % 256]
      else .error .corruptInput
    | some v0, some v1, none, _ =>
      let val := v0 * 262144 + v1 * 4096
      if c2 = padChar ∧ c3 = padChar ∧ rest = [] then .ok [val / 65536 % 256]
      else .error .corruptInput
    | _, _, _, _ => .error .corruptInput
  | [] => .ok []
  | _ => .error .corruptInput

/-- Models `base64.StdEncoding.DecodeString`: carriage returns and line feeds are skipped,
then the quanta are decoded. -/
def base64Decode (s : Bytes) : Except CryptoError Bytes :=
  decodeQuanta (s.filter (fun c => c ≠ 13 ∧ c ≠ 10))

/-- Models `subtle.XORBytes`: the bytewise exclusive or, as long as the shorter operand. -/
def xorBytes (x y : Bytes) : Bytes := List.zipWith (fun a b => a ^^^ b) x y

/-- Models `XORKeyStream` of `cipher.NewCFBEncrypter(block, next)`: each chunk of at most
a block is xored with the encryption of the previous ciphertext block. -/
def cfbEncrypt (block : Block) (next : Bytes) (src : Bytes) : Bytes :=
  if src = [] then []
  else
    let out := block.Encrypt next
    let dst := xorBytes (src.take aesBlockSize) out
    dst ++ cfbEncrypt block dst (src.drop aesBlockSize)
termination_by src.length
decreasing_by
  simp only [List.length_drop, aesBlockSize]
  have : 0 < src.length := List.length_pos.2 ‹_›
  omega

/-- Models `XORKeyStream` of `cipher.NewCFBDecrypter(block, next)`: each chunk of at most
a block is xored with the encryption of the previous ciphertext block. -/
def cfbDecrypt (block : Block) (next : Bytes) (src : Bytes) : Bytes :=
  if src = [] then []
  else
    let out := block.Encrypt next
    let chunk := src.take aesBlockSize
    xorBytes chunk out ++ cfbDecrypt block chunk (src.drop aesBlockSize)
termination_by src.length
decreasing_by
  simp only [List.length_drop, aesBlockSize]
  have : 0 < src.length := List.length_pos.2 ‹_›
  omega

/-- Embeds `Encrypt`. `rand` is the outcome of `io.ReadFull(rand.Reader, iv)`: the 16
bytes read into `iv`, or an error. -/
def Encrypt (aes : Bytes → Block) (rand : Except GoError Bytes) (value secretKey : Bytes) :
    Except CryptoError Bytes :=
  match aesNewCipher aes secretKey with
  | .error err => .error err
  | .ok block =>
    let b := base64Encode value
    match rand with
    | .error err => .error (.rand err)
    | .ok iv => .ok (iv ++ cfbEncrypt block iv b)

/-- Embeds `Decrypt`. A slice shorter than `aes.BlockSize` is taken to have no spare
capacity, so that `encryptedValue[:aes.BlockSize]` panics on it. -/
def Decrypt (aes : Bytes → Block) (encryptedValue secretKey : Bytes) :
    Except CryptoError Bytes :=
  match aesNewCipher aes secretKey with
  | .error err => .error err
  | .ok block =>
    if encryptedValue.length < aesBlockSize then
      .error (.panicked "slice bounds out of range")
    else
      let iv := encryptedValue.take aesBlockSize
      let encryptedValue := encryptedValue.drop aesBlockSize
      base64Decode (cfbDecrypt block iv encryptedValue)

/-- A stand-in for the AES family, for evaluation: the block xored with the first key
byte, cut or filled up to 16 bytes. -/
def toyCipher (key : Bytes) : Block where
  Encrypt := fun src =>
    (src.map (fun x => x ^^^ key.headD 0) ++ List.replicate 16 0).take 16
  size := by
    intro src
    simp only [aesBlockSize, List.length_take, List.length_append, List.length_map,
      List.length_replicate]
    omega

/-! ## `slice/slice.go` -/

/-- Embeds `SafeStringCut`. A string is the list of its bytes; `Except.error msg` stands
for the run-time panic of `s[:length]` with a bound out of range. -/
def SafeStringCut (s : Bytes) (length : Int) : Except String Bytes :=
  if (s.length : Int) < length then .ok s
  else if length < 0 then .error "slice bounds out of range"
  else .ok (s.take length.toNat)

end Eli

namespace Eli

/-! ## Helper lemmas -/

theorem bypass_test_false (m : JWTMiddleware) (r : Request) (h : ¬ bypassed m r) :
    (!m.Options.EnableAuthOnOptions && r.Method == "OPTIONS") = false := by
  unfold bypassed at h
  cases hE : m.Options.EnableAuthOnOptions
  · simp only [hE, true_and] at h
    simp [h]
  · simp

theorem bypass_test_true (m : JWTMiddleware) (r : Request) (h : bypassed m r) :
    (!m.Options.EnableAuthOnOptions && r.Method == "OPTIONS") = true := by
  obtain ⟨h1, h2⟩ := h
  simp [h1, h2]

theorem handlerCalls_append (xs ys : List Event) :
    handlerCalls (xs ++ ys) = handlerCalls xs ++ handlerCalls ys := by
  induction xs with
  | nil => rfl
  | cons e es ih => cases e <;> simp [handlerCalls, ih]

theorem nextCalls_append (xs ys : List Event) :
    nextCalls (xs ++ ys) = nextCalls xs ++ nextCalls ys := by
  induction xs with
  | nil => rfl
  | cons e es ih => cases e <;> simp [nextCalls, ih]

theorem JWTFromContext_WithValue (ctx : Context) (t : Token) :
    JWTFromContext (ctx.WithValue .jwtContextKey (.token t)) = some t := by
  simp [JWTFromContext, Context.Value, Context.WithValue, List.lookup]

/-- Unfolding of `CheckJWT` on a request that the OPTIONS rule lets through. -/
theorem checkJWT_of_bypassed (jwtParse : JwtParse) (m : JWTMiddleware)
    (w : ResponseRecorder) (r : Request) (h : bypassed m r) :
    CheckJWT jwtParse m w r = ⟨.returned none, w, r, []⟩ := by
  unfold CheckJWT
  simp [bypass_test_true m r h]

/-- Unfolding of `CheckJWT` when the extractor reports an error. -/
theorem checkJWT_of_extract_error (jwtParse : JwtParse) (m : JWTMiddleware)
    (w : ResponseRecorder) (r : Request) (ex : TokenExtractor) (tok : String) (e : GoError)
    (hby : ¬ bypassed m r) (hex : m.Options.Extractor = some ex)
    (hr : ex r = (tok, some e)) :
    CheckJWT jwtParse m w r
      = failWith m w r [.extract] e.text (.wrap e "error extracting token") := by
  unfold CheckJWT
  simp [bypass_test_false m r hby, hex, hr]

/-- Unfolding of `CheckJWT` when the extractor finds no token. -/
theorem checkJWT_of_no_token (jwtParse : JwtParse) (m : JWTMiddleware)
    (w : ResponseRecorder) (r : Request) (ex : TokenExtractor)
    (hby : ¬ bypassed m r) (hex : m.Options.Extractor = some ex)
    (hr : ex r = ("", none)) :
    CheckJWT jwtParse m w r
      = if m.Options.CredentialsOptional then ⟨.returned none, w, r, [.extract]⟩
        else failWith m w r [.extract] "Required authorization token not found"
          (.errorf "required authorization token not found") := by
  unfold CheckJWT
  simp [bypass_test_false m r hby, hex, hr]

/-- Unfolding of `CheckJWT` when the parser refuses the token. -/
theorem checkJWT_of_parse_error (jwtParse : JwtParse) (m : JWTMiddleware)
    (w : ResponseRecorder) (r : Request) (ex : TokenExtractor) (tok : String) (e : GoError)
    (hby : ¬ bypassed m r) (hex : m.Options.Extractor = some ex)
    (hr : ex r = (tok, none)) (hne : tok ≠ "")
    (hp : jwtParse tok m.Options.ValidationKeyGetter = .fail e) :
    CheckJWT jwtParse m w r
      = failWith m w r [.extract, .parse tok] e.text (.wrap e "error parsing token") := by
  unfold CheckJWT
  simp [bypass_test_false m r hby, hex, hr, hne, hp]

/-- Unfolding of `CheckJWT` when the parser returns a token. -/
theorem checkJWT_of_parsed (jwtParse : JwtParse) (m : JWTMiddleware)
    (w : ResponseRecorder) (r : Request) (ex : TokenExtractor) (tok : String) (parsed : Token)
    (hby : ¬ bypassed m r) (hex : m.Options.Extractor = some ex)
    (hr : ex r = (tok, none)) (hne : tok ≠ "")
    (hp : jwtParse tok m.Options.ValidationKeyGetter = .ok parsed) :
    CheckJWT jwtParse m w r
      = match algMismatch m parsed with
        | some message => failWith m w r [.extract, .parse tok] message (.errorf message)
        | none =>
          if !parsed.Valid then
            failWith m w r [.extract, .parse tok] "The token is not valid"
              (.errorf "invalid token")
          else
            ⟨.returned none, w,
              r.WithContext (r.ctx.WithValue .jwtContextKey (.token parsed)),
              [.extract, .parse tok]⟩ := by
  unfold CheckJWT
  simp [bypass_test_false m r hby, hex, hr, hne, hp]

/-- The response after `OnError`: status 401 when no header had been written. -/
theorem onError_code (w : ResponseRecorder) (r : Request) (msg : String)
    (hw : w.wroteHeader = false) : (OnError w r msg).Code = 401 := by
  simp [OnError, httpError, ResponseRecorder.Write, ResponseRecorder.WriteHeader, hw,
    StatusUnauthorized]

/-- The response after `OnError`: the message and a newline are appended to the body. -/
theorem onError_body (w : ResponseRecorder) (r : Request) (msg : String) :
    (OnError w r msg).Body = w.Body ++ (msg ++ "\n") := by
  rcases w with ⟨code, body, _ | _⟩ <;>
    simp [OnError, httpError, ResponseRecorder.Write, ResponseRecorder.WriteHeader]

/-- The four ways an invocation of `CheckJWT` ends: nil with the request untouched; a
panic before any handler call; a non-nil error after one handler call; nil with the
parsed token added to the context. -/
theorem checkJWT_shape (jwtParse : JwtParse) (m : JWTMiddleware) (w : ResponseRecorder)
    (r : Request) :
    (∃ tr, CheckJWT jwtParse m w r = ⟨.returned none, w, r, tr⟩
        ∧ handlerCalls tr = [] ∧ nextCalls tr = [])
    ∨ (∃ tr, CheckJWT jwtParse m w r = ⟨.panicked, w, r, tr⟩
        ∧ handlerCalls tr = [] ∧ nextCalls tr = [])
    ∨ (∃ h msg err tr, m.Options.ErrorHandler = some h
        ∧ CheckJWT jwtParse m w r = ⟨.returned (some err), h w r msg, r, tr ++ [.handler msg]⟩
        ∧ handlerCalls tr = [] ∧ nextCalls tr = [])
    ∨ (∃ parsed tr, CheckJWT jwtParse m w r
          = ⟨.returned none, w, r.WithContext (r.ctx.WithValue .jwtContextKey (.token parsed)), tr⟩
        ∧ handlerCalls tr = [] ∧ nextCalls tr = []) := by
  have hfail : ∀ tr msg err, handlerCalls tr = [] → nextCalls tr = [] →
      (failWith m w r tr msg err = ⟨.panicked, w, r, tr⟩)
      ∨ (∃ h, m.Options.ErrorHandler = some h
          ∧ failWith m w r tr msg err
            = ⟨.returned (some err), h w r msg, r, tr ++ [.handler msg]⟩) := by
    intro tr msg err _ _
    unfold failWith
    cases m.Options.ErrorHandler with
    | none => exact Or.inl rfl
    | some h => exact Or.inr ⟨h, rfl, rfl⟩
  have hfin : ∀ tr msg err, CheckJWT jwtParse m w r = failWith m w r tr msg err →
      handlerCalls tr = [] → nextCalls tr = [] →
      (∃ tr, CheckJWT jwtParse m w r = ⟨.panicked, w, r, tr⟩
        ∧ handlerCalls tr = [] ∧ nextCalls tr = [])
      ∨ (∃ h msg err tr, m.Options.ErrorHandler = some h
        ∧ CheckJWT jwtParse m w r = ⟨.returned (some err), h w r msg, r, tr ++ [.handler msg]⟩
        ∧ handlerCalls tr = [] ∧ nextCalls tr = []) := by
    intro tr msg err key h1 h2
    rcases hfail tr msg err h1 h2 with hf | ⟨h, hh, hf⟩
    · exact Or.inl ⟨tr, key.trans hf, h1, h2⟩
    · exact Or.inr ⟨h, msg, err, tr, hh, key.trans hf, h1, h2⟩
  by_cases hby : bypassed m r
  · exact Or.inl ⟨[], checkJWT_of_bypassed jwtParse m w r hby, rfl, rfl⟩
  · cases hex : m.Options.Extractor with
    | none =>
      refine Or.inr (Or.inl ⟨[], ?_, rfl, rfl⟩)
      unfold CheckJWT
      simp [bypass_test_false m r hby, hex]
    | some ex =>
      rcases hr : ex r with ⟨tok, _ | e⟩
      · by_cases hne : tok = ""
        · subst hne
          have key := checkJWT_of_no_token jwtParse m w r ex hby hex hr
          cases hopt : m.Options.CredentialsOptional
          · simp only [hopt] at key
            rcases hfin _ _ _ key rfl rfl with h | h
            · exact Or.inr (Or.inl h)
            · exact Or.inr (Or.inr (Or.inl h))
          · simp only [hopt] at key
            exact Or.inl ⟨[.extract], key, rfl, rfl⟩
        · cases hp : jwtParse tok m.Options.ValidationKeyGetter with
          | fail e =>
            have key := checkJWT_of_parse_error jwtParse m w r ex tok e hby hex hr hne hp
            rcases hfin _ _ _ key rfl rfl with h | h
            · exact Or.inr (Or.inl h)
            · exact Or.inr (Or.inr (Or.inl h))
          | ok parsed =>
            have key := checkJWT_of_parsed jwtParse m w r ex tok parsed hby hex hr hne hp
            cases hmis : algMismatch m parsed with
            | some message =>
              simp only [hmis] at key
              rcases hfin _ _ _ key rfl rfl with h | h
              · exact Or.inr (Or.inl h)
              · exact Or.inr (Or.inr (Or.inl h))
            | none =>
              simp only [hmis] at key
              cases hv : parsed.Valid
              · simp only [hv] at key
                rcases hfin _ _ _ key rfl rfl with h | h
                · exact Or.inr (Or.inl h)
                · exact Or.inr (Or.inr (Or.inl h))
              · simp only [hv] at key
                exact Or.inr (Or.inr (Or.inr ⟨parsed, [.extract, .parse tok], key, rfl, rfl⟩))
      · have key := checkJWT_of_extract_error jwtParse m w r ex tok e hby hex hr
        rcases hfin _ _ _ key rfl rfl with h | h
        · exact Or.inr (Or.inl h)
        · exact Or.inr (Or.inr (Or.inl h))

/-- The outcome of `failWith` apart from the response: it does not depend on the request
beyond passing it on. -/
theorem failWith_congr (m : JWTMiddleware) (w : ResponseRecorder) (r1 r2 : Request)
    (tr : List Event) (msg : String) (err : CheckError) (hctx : r1.ctx = r2.ctx) :
    (failWith m w r1 tr msg err).ret = (failWith m w r2 tr msg err).ret
      ∧ (failWith m w r1 tr msg err).trace = (failWith m w r2 tr msg err).trace
      ∧ (failWith m w r1 tr msg err).r.ctx = (failWith m w r2 tr msg err).r.ctx := by
  unfold failWith
  cases m.Options.ErrorHandler <;> simp [hctx]

/-- Two requests with the same context, neither let through by the OPTIONS rule, on which
the extractor gives the same result, have the same outcome. -/
theorem checkJWT_congr (jwtParse : JwtParse) (m : JWTMiddleware) (w : ResponseRecorder)
    (r1 r2 : Request) (h1 : ¬ bypassed m r1) (h2 : ¬ bypassed m r2)
    (hctx : r1.ctx = r2.ctx)
    (hsame : ∀ ex, m.Options.Extractor = some ex → ex r1 = ex r2) :
    (CheckJWT jwtParse m w r1).ret = (CheckJWT jwtParse m w r2).ret
      ∧ (CheckJWT jwtParse m w r1).trace = (CheckJWT jwtParse m w r2).trace
      ∧ (CheckJWT jwtParse m w r1).r.ctx = (CheckJWT jwtParse m w r2).r.ctx := by
  cases hex : m.Options.Extractor with
  | none =>
    have k1 : CheckJWT jwtParse m w r1 = ⟨.panicked, w, r1, []⟩ := by
      unfold CheckJWT
      simp [bypass_test_false m r1 h1, hex]
    have k2 : CheckJWT jwtParse m w r2 = ⟨.panicked, w, r2, []⟩ := by
      unfold CheckJWT
      simp [bypass_test_false m r2 h2, hex]
    rw [k1, k2]
    exact ⟨rfl, rfl, hctx⟩
  | some ex =>
    have heq := hsame ex hex
    rcases hr2 : ex r2 with ⟨tok, _ | e⟩
    · have hr1 : ex r1 = (tok, none) := heq.trans hr2
      by_cases hne : tok = ""
      · subst hne
        rw [checkJWT_of_no_token jwtParse m w r1 ex h1 hex hr1,
          checkJWT_of_no_token jwtParse m w r2 ex h2 hex hr2]
        cases m.Options.CredentialsOptional
        · simpa using failWith_congr m w r1 r2 _ _ _ hctx
        · simpa using hctx
      · cases hp : jwtParse tok m.Options.ValidationKeyGetter with
        | fail e =>
          rw [checkJWT_of_parse_error jwtParse m w r1 ex tok e h1 hex hr1 hne hp,
            checkJWT_of_parse_error jwtParse m w r2 ex tok e h2 hex hr2 hne hp]
          exact failWith_congr m w r1 r2 _ _ _ hctx
        | ok parsed =>
          rw [checkJWT_of_parsed jwtParse m w r1 ex tok parsed h1 hex hr1 hne hp,
            checkJWT_of_parsed jwtParse m w r2 ex tok parsed h2 hex hr2 hne hp]
          cases algMismatch m parsed with
          | some message => exact failWith_congr m w r1 r2 _ _ _ hctx
          | none =>
            cases parsed.Valid
            · simpa using failWith_congr m w r1 r2 _ _ _ hctx
            · simp [Request.WithContext, hctx]
    · have hr1 : ex r1 = (tok, some e) := heq.trans hr2
      rw [checkJWT_of_extract_error jwtParse m w r1 ex tok e h1 hex hr1,
        checkJWT_of_extract_error jwtParse m w r2 ex tok e h2 hex hr2]
      exact failWith_congr m w r1 r2 _ _ _ hctx

/-! ## Lemmas on `strings.Fields` and `strings.ToLower` -/

theorem isSpace_toNat (c : Char) (h : isSpace c = true) : c.toNat < 65 ∨ 90 < c.toNat := by
  simp only [isSpace, Bool.or_eq_true, decide_eq_true_eq, Bool.and_eq_true] at h
  rcases h with ((((((((((((((h | h) | h) | h) | h) | h) | h) | h) | h) | h) | h) | h) | h) | h) | h)
  all_goals first | (subst h; decide) | omega

theorem toLower_of_isSpace (c : Char) (h : isSpace c = true) : c.toLower = c := by
  have hn := isSpace_toNat c h
  unfold Char.toLower
  have : ¬ (c.toNat ≥ 65 ∧ c.toNat ≤ 90) := by omega
  simp [this]

/-- A scheme that lower-cases to "bearer" is non-empty and has no white space. -/
theorem scheme_of_toLower (scheme : String) (h : ToLower scheme = "bearer") :
    scheme.toList ≠ [] ∧ ∀ c ∈ scheme.toList, isSpace c = false := by
  have hl : scheme.toList.map Char.toLower = ['b', 'e', 'a', 'r', 'e', 'r'] :=
    congrArg String.data h
  constructor
  · intro hnil
    rw [hnil] at hl
    cases hl
  · intro c hc
    cases hs : isSpace c with
    | false => rfl
    | true =>
      have hmem : c.toLower ∈ scheme.toList.map Char.toLower := List.mem_map_of_mem _ hc
      rw [toLower_of_isSpace c hs, hl] at hmem
      have hall : ∀ x ∈ ['b', 'e', 'a', 'r', 'e', 'r'], isSpace x = false := by decide
      rw [hall c hmem] at hs
      cases hs

/-- The loop of `Fields` reads a run of non-space characters into the current field. -/
theorem fieldsAux_run (xs rest cur : List Char) (h : ∀ c ∈ xs, isSpace c = false) :
    fieldsAux (xs ++ rest) cur = fieldsAux rest (xs.reverse ++ cur) := by
  induction xs generalizing cur with
  | nil => rfl
  | cons x xs ih =>
    have hx := h x (List.mem_cons_self _ _)
    rw [List.cons_append]
    simp only [fieldsAux, hx]
    rw [ih (x :: cur) (fun c hc => h c (List.mem_cons_of_mem _ hc))]
    simp

/-- The fields of a run of non-space characters, a space, and another such run. -/
theorem fields_two (a b : List Char) (ha : a ≠ []) (hb : b ≠ [])
    (hsa : ∀ c ∈ a, isSpace c = false) (hsb : ∀ c ∈ b, isSpace c = false) :
    fieldsAux (a ++ ' ' :: b) [] = [String.mk a, String.mk b] := by
  rw [fieldsAux_run a (' ' :: b) [] hsa]
  have h1 : isSpace ' ' = true := by decide
  have h2 : a.reverse ++ [] ≠ [] := by simpa using ha
  simp only [fieldsAux, h1, h2, if_true, if_false]
  have h3 := fieldsAux_run b [] [] hsb
  rw [List.append_nil] at h3
  rw [h3]
  simp [fieldsAux, hb]

/-- Every field is non-empty and free of white space. -/
theorem fieldsAux_mem (cs cur : List Char) (hcur : ∀ c ∈ cur, isSpace c = false) :
    ∀ f ∈ fieldsAux cs cur, f ≠ "" ∧ ∀ c ∈ f.toList, isSpace c = false := by
  have hmk : ∀ l : List Char, l ≠ [] → (∀ c ∈ l, isSpace c = false) →
      String.mk l.reverse ≠ "" ∧ ∀ c ∈ (String.mk l.reverse).toList, isSpace c = false := by
    intro l hl hs
    constructor
    · intro h
      have := congrArg String.data h
      simp at this
      exact hl this
    · intro c hc
      exact hs c (by simpa using hc)
  induction cs generalizing cur with
  | nil =>
    intro f hf
    by_cases hc : cur = []
    · simp [fieldsAux, hc] at hf
    · simp only [fieldsAux, hc, if_false, List.mem_singleton] at hf
      subst hf
      exact hmk cur hc hcur
  | cons x xs ih =>
    intro f hf
    cases hx : isSpace x with
    | true =>
      by_cases hc : cur = []
      · simp only [fieldsAux, hx, hc, if_true] at hf
        exact ih [] (by simp) f hf
      · simp only [fieldsAux, hx, hc, if_true, if_false, List.mem_cons] at hf
        rcases hf with hf | hf
        · subst hf
          exact hmk cur hc hcur
        · exact ih [] (by simp) f hf
    | false =>
      simp only [fieldsAux, hx] at hf
      refine ih (x :: cur) ?_ f hf
      intro c hc
      rcases List.mem_cons.1 hc with h | h
      · subst h; exact hx
      · exact hcur c h

/-! ## Lemmas on base64 and CFB -/

theorem b64Val_b64Char : ∀ i, i < 64 → b64Val (b64Char i) = some i := by
  decide

theorem b64Char_not_newline : ∀ i, i < 64 → b64Char i ≠ 13 ∧ b64Char i ≠ 10 := by
  decide

theorem b64Val_padChar : b64Val padChar = none := by
  decide

/-- The encoding of `n` bytes has `4 * ceil(n / 3)` characters. -/
theorem base64Encode_length (v : Bytes) :
    (base64Encode v).length = 4 * ((v.length + 2) / 3) := by
  induction v using base64Encode.induct with
  | case1 a b c rest ih =>
    simp only [base64Encode, List.length_cons, ih]
    omega
  | case2 a b => simp [base64Encode]
  | case3 a => simp [base64Encode]
  | case4 => simp [base64Encode]

/-- The encoding contains no carriage return and no line feed. -/
theorem base64Encode_filter (v : Bytes) :
    (base64Encode v).filter (fun c => c ≠ 13 ∧ c ≠ 10) = base64Encode v := by
  have hc : ∀ n, decide (b64Char (n % 64) ≠ 13 ∧ b64Char (n % 64) ≠ 10) = true := by
    intro n
    exact decide_eq_true (b64Char_not_newline (n % 64) (Nat.mod_lt _ (by decide)))
  have hp : decide (padChar ≠ 13 ∧ padChar ≠ 10) = true := by decide
  induction v using base64Encode.induct with
  | case1 a b c rest ih =>
    simp only [base64Encode, List.filter_cons, hc, if_true, ih]
  | case2 a b => simp only [base64Encode, List.filter_cons, hc, hp, if_true, List.filter_nil]
  | case3 a => simp only [base64Encode, List.filter_cons, hc, hp, if_true, List.filter_nil]
  | case4 => rfl

/-- Decoding undoes encoding, on bytes below 256. -/
theorem decodeQuanta_base64Encode (v : Bytes) (hv : ∀ x ∈ v, x < 256) :
    decodeQuanta (base64Encode v) = .ok v := by
  have hval : ∀ n, b64Val (b64Char (n % 64)) = some (n % 64) := fun n =>
    b64Val_b64Char (n % 64) (Nat.mod_lt _ (by decide))
  induction v using base64Encode.induct with
  | case1 a b c rest ih =>
    have ha := hv a (by simp)
    have hb := hv b (by simp)
    have hc := hv c (by simp)
    have ih2 := ih (fun x hx => hv x (by simp [hx]))
    simp only [base64Encode, decodeQuanta, hval, ih2]
    congr 1
    refine List.cons_eq_cons.2 ⟨by omega, List.cons_eq_cons.2 ⟨by omega,
      List.cons_eq_cons.2 ⟨by omega, rfl⟩⟩⟩
  | case2 a b =>
    have ha := hv a (by simp)
    have hb := hv b (by simp)
    simp only [base64Encode, decodeQuanta, hval, b64Val_padChar, and_self, if_true]
    congr 1
    refine List.cons_eq_cons.2 ⟨by omega, List.cons_eq_cons.2 ⟨by omega, rfl⟩⟩
  | case3 a =>
    have ha := hv a (by simp)
    simp only [base64Encode, decodeQuanta, hval, b64Val_padChar, and_self, if_true]
    congr 1
    refine List.cons_eq_cons.2 ⟨by omega, rfl⟩
  | case4 => rfl

theorem xorBytes_length (x y : Bytes) : (xorBytes x y).length = min x.length y.length := by
  simp [xorBytes]

/-- Xoring twice with the same key stream gives the input back. -/
theorem xorBytes_cancel (x y : Bytes) (h : x.length ≤ y.length) :
    xorBytes (xorBytes x y) y = x := by
  induction x generalizing y with
  | nil => simp [xorBytes]
  | cons a x ih =>
    cases y with
    | nil => simp at h
    | cons b y =>
      have h2 : x.length ≤ y.length := by simpa using h
      have := ih y h2
      simp only [xorBytes] at this ⊢
      simp [List.zipWith, Nat.xor_cancel_right, this]

/-- The first chunk of the key stream output has the length of the input chunk. -/
theorem chunk_length (block : Block) (next src : Bytes) :
    (xorBytes (src.take aesBlockSize) (block.Encrypt next)).length
      = min aesBlockSize src.length := by
  rw [xorBytes_length, block.size, List.length_take]
  omega

theorem cfbEncrypt_length (block : Block) (src : Bytes) :
    ∀ next, (cfbEncrypt block next src).length = src.length := by
  suffices h : ∀ n (src : Bytes), src.length = n →
      ∀ next, (cfbEncrypt block next src).length = src.length from h _ src rfl
  intro n
  induction n using Nat.strong_induction_on with
  | _ n ih =>
    intro src hn next
    rw [cfbEncrypt]
    by_cases hs : src = []
    · subst hs
      simp at hn
      simp [hn]
    · have hpos : 0 < src.length := List.length_pos.2 hs
      simp only [hs, if_false, List.length_append, chunk_length]
      rw [ih (src.length - aesBlockSize) (by simp only [aesBlockSize]; omega)
        (src.drop aesBlockSize) (by simp)]
      simp only [aesBlockSize, List.length_drop]
      omega

/-- CFB decryption undoes CFB encryption under the same block cipher and IV. -/
theorem cfbDecrypt_cfbEncrypt (block : Block) (src : Bytes) :
    ∀ next, cfbDecrypt block next (cfbEncrypt block next src) = src := by
  suffices h : ∀ n (src : Bytes), src.length = n →
      ∀ next, cfbDecrypt block next (cfbEncrypt block next src) = src from h _ src rfl
  intro n
  induction n using Nat.strong_induction_on with
  | _ n ih =>
    intro src hn next
    by_cases hs : src = []
    · subst hs
      rw [cfbEncrypt]
      simp only [if_true]
      rw [cfbDecrypt]
      simp
    · have hpos : 0 < src.length := List.length_pos.2 hs
      have hrec := ih (src.length - aesBlockSize) (by simp only [aesBlockSize]; omega)
        (src.drop aesBlockSize) (by simp)
        (xorBytes (src.take aesBlockSize) (block.Encrypt next))
      have hlen := chunk_length block next src
      have hrl := cfbEncrypt_length block (src.drop aesBlockSize)
        (xorBytes (src.take aesBlockSize) (block.Encrypt next))
      rw [cfbEncrypt]
      simp only [hs, if_false]
      generalize hd : xorBytes (src.take aesBlockSize) (block.Encrypt next) = dst at *
      generalize hR : cfbEncrypt block dst (src.drop aesBlockSize) = R at *
      have hne : dst ++ R ≠ [] := by
        intro h
        have := congrArg List.length h
        simp only [List.length_append, List.length_nil, hlen, aesBlockSize] at this
        omega
      have htake : (dst ++ R).take aesBlockSize = dst := by
        by_cases hfull : aesBlockSize ≤ src.length
        · have : dst.length = aesBlockSize := by rw [hlen]; omega
          rw [← this]
          exact List.take_left _ _
        · have hR0 : R = [] := by
            apply List.eq_nil_of_length_eq_zero
            rw [hrl, List.length_drop]
            omega
          subst hR0
          rw [List.append_nil]
          apply List.take_of_length_le
          rw [hlen]
          omega
      have hdrop : (dst ++ R).drop aesBlockSize = R := by
        by_cases hfull : aesBlockSize ≤ src.length
        · have : dst.length = aesBlockSize := by rw [hlen]; omega
          rw [← this]
          exact List.drop_left _ _
        · have hR0 : R = [] := by
            apply List.eq_nil_of_length_eq_zero
            rw [hrl, List.length_drop]
            omega
          subst hR0
          rw [List.append_nil]
          apply List.drop_of_length_le
          rw [hlen]
          omega
      rw [cfbDecrypt]
      simp only [hne, if_false, htake, hdrop, hrec]
      rw [← hd, xorBytes_cancel _ _ (by rw [List.length_take, block.size]; omega)]
      exact List.take_append_drop _ _

/-! ## The algorithm check -/

/-- C1: with a signing method `sm` configured, on a request that is not let through by the
OPTIONS rule, whose extracted token is non-empty and parses without error, if the header
value `alg` of the parsed token is not the string `sm.Alg` (compared exactly), `CheckJWT`
returns a non-nil error, calls the error handler once, with the message
"Expected <sm.Alg> signing method but token specified <alg>", and leaves the request, and
so its context, as it was. Nothing is assumed about the `Valid` flag of the token. -/
theorem checkJWT_alg_mismatch (jwtParse : JwtParse) (m : JWTMiddleware)
    (w : ResponseRecorder) (r : Request) (sm : SigningMethod) (ex : TokenExtractor)
    (h : errorHandler) (tok : String) (parsed : Token)
    (hsm : m.Options.SigningMethod = some sm)
    (hby : ¬ bypassed m r)
    (hex : m.Options.Extractor = some ex)
    (hh : m.Options.ErrorHandler = some h)
    (hr : ex r = (tok, none)) (hne : tok ≠ "")
    (hp : jwtParse tok m.Options.ValidationKeyGetter = .ok parsed)
    (halg : parsed.headerGet "alg" ≠ .str sm.Alg) :
    CheckJWT jwtParse m w r =
        ⟨.returned (some (.errorf ("Expected " ++ sm.Alg
            ++ " signing method but token specified " ++ (parsed.headerGet "alg").fmtS))),
          h w r ("Expected " ++ sm.Alg ++ " signing method but token specified "
            ++ (parsed.headerGet "alg").fmtS),
          r,
          [.extract, .parse tok, .handler ("Expected " ++ sm.Alg
            ++ " signing method but token specified " ++ (parsed.headerGet "alg").fmtS)]⟩
      ∧ (∃ e, (CheckJWT jwtParse m w r).ret = .returned (some e))
      ∧ handlerCalls (CheckJWT jwtParse m w r).trace
          = ["Expected " ++ sm.Alg ++ " signing method but token specified "
              ++ (parsed.headerGet "alg").fmtS]
      ∧ (CheckJWT jwtParse m w r).r.ctx = r.ctx
      ∧ JWTFromContext (CheckJWT jwtParse m w r).r.ctx = JWTFromContext r.ctx := by
  have hmis : algMismatch m parsed = some ("Expected " ++ sm.Alg
      ++ " signing method but token specified " ++ (parsed.headerGet "alg").fmtS) := by
    unfold algMismatch
    rw [hsm]
    simp [Ne.symm halg]
  have key := checkJWT_of_parsed jwtParse m w r ex tok parsed hby hex hr hne hp
  rw [hmis] at key
  simp only [failWith, hh] at key
  rw [key]
  refine ⟨rfl, ⟨_, rfl⟩, ?_, rfl, rfl⟩
  simp [handlerCalls]

/-- C1, at a concrete input: RS512 is configured, the token says HS256 and is marked valid. -/
theorem checkJWT_alg_mismatch_witness :
    (CheckJWT (parseTo (tokenWith "t" "HS256" true)) (testMiddleware (extractorOf "t") false false)
        NewRecorder (NewRequest "POST")).ret
      = .returned (some (.errorf "Expected RS512 signing method but token specified HS256")) :=
  (congrArg Result.ret
    (checkJWT_alg_mismatch (parseTo (tokenWith "t" "HS256" true))
      (testMiddleware (extractorOf "t") false false) NewRecorder (NewRequest "POST")
      ⟨"RS512"⟩ (extractorOf "t") OnError "t" (tokenWith "t" "HS256" true)
      rfl (by decide) rfl rfl rfl (by decide) rfl (by decide)).1).trans (by decide)

/-- C2 as stated fails: a middleware value with no signing method set attaches a token
that the request did not carry before, and there is no configured signing method whose
`Alg()` the header `alg` of the token equals. -/
theorem checkJWT_attaches_without_signing_method :
    ¬ (JWTFromContext (CheckJWT (parseTo (tokenWith "t" "HS256" true))
          (unpinnedMiddleware (extractorOf "t")) NewRecorder (NewRequest "POST")).r.ctx
        ≠ JWTFromContext (NewRequest "POST").ctx →
      ∃ sm, (unpinnedMiddleware (extractorOf "t")).Options.SigningMethod = some sm
        ∧ (tokenWith "t" "HS256" true).headerGet "alg" = .str sm.Alg) := by
  intro hclaim
  have hnew : JWTFromContext (CheckJWT (parseTo (tokenWith "t" "HS256" true))
        (unpinnedMiddleware (extractorOf "t")) NewRecorder (NewRequest "POST")).r.ctx
      ≠ JWTFromContext (NewRequest "POST").ctx := by decide
  obtain ⟨sm, hsm, _⟩ := hclaim hnew
  exact absurd hsm (by simp [unpinnedMiddleware])

/-- C2, amended: for every configuration, parser and request, either `CheckJWT` leaves
the request as it was, or it returned nil after the extractor gave a non-empty token, the
parser returned a token `parsed` for it with no error, `parsed.Valid` is true, the header
`alg` of `parsed` equals `Alg()` of the signing method whenever one is configured, and the
request is the old one with `parsed` added to its context under the JWT key. The request
is left as it was whenever `CheckJWT` does not return nil, on the OPTIONS rule, and when
the extractor gives the empty token. -/
theorem checkJWT_context_written_only_on_success (jwtParse : JwtParse) (m : JWTMiddleware)
    (w : ResponseRecorder) (r : Request) :
    ((CheckJWT jwtParse m w r).r = r
      ∨ ∃ ex tok parsed,
          m.Options.Extractor = some ex ∧ ex r = (tok, none) ∧ tok ≠ ""
          ∧ jwtParse tok m.Options.ValidationKeyGetter = .ok parsed
          ∧ (∀ sm, m.Options.SigningMethod = some sm → parsed.headerGet "alg" = .str sm.Alg)
          ∧ parsed.Valid = true
          ∧ (CheckJWT jwtParse m w r).ret = .returned none
          ∧ (CheckJWT jwtParse m w r).r
              = r.WithContext (r.ctx.WithValue .jwtContextKey (.token parsed))
          ∧ JWTFromContext (CheckJWT jwtParse m w r).r.ctx = some parsed)
    ∧ ((CheckJWT jwtParse m w r).ret ≠ .returned none → (CheckJWT jwtParse m w r).r = r)
    ∧ (bypassed m r → (CheckJWT jwtParse m w r).r = r)
    ∧ (∀ ex, m.Options.Extractor = some ex → (ex r).1 = "" →
        (CheckJWT jwtParse m w r).r = r) := by
  have hfail : ∀ tr msg err, (failWith m w r tr msg err).r = r
      ∧ ((failWith m w r tr msg err).ret = .returned none → False) := by
    intro tr msg err
    unfold failWith
    cases m.Options.ErrorHandler <;> simp
  by_cases hby : bypassed m r
  · have key := checkJWT_of_bypassed jwtParse m w r hby
    simp [key]
  · cases hex : m.Options.Extractor with
    | none =>
      have key : CheckJWT jwtParse m w r = ⟨.panicked, w, r, []⟩ := by
        unfold CheckJWT
        simp [bypass_test_false m r hby, hex]
      simp [key]
    | some ex =>
      rcases hr : ex r with ⟨tok, _ | e⟩
      · by_cases hne : tok = ""
        · subst hne
          have key := checkJWT_of_no_token jwtParse m w r ex hby hex hr
          cases hopt : m.Options.CredentialsOptional
          · simp only [hopt] at key
            simp [key, (hfail _ _ _).1]
          · simp only [hopt] at key
            simp [key]
        · cases hp : jwtParse tok m.Options.ValidationKeyGetter with
          | fail e =>
            have key := checkJWT_of_parse_error jwtParse m w r ex tok e hby hex hr hne hp
            simp [key, (hfail _ _ _).1]
          | ok parsed =>
            have key := checkJWT_of_parsed jwtParse m w r ex tok parsed hby hex hr hne hp
            cases hmis : algMismatch m parsed with
            | some message =>
              simp only [hmis] at key
              simp [key, (hfail _ _ _).1]
            | none =>
              simp only [hmis] at key
              cases hv : parsed.Valid
              · simp only [hv] at key
                simp [key, (hfail _ _ _).1]
              · simp only [hv] at key
                have halg : ∀ sm, m.Options.SigningMethod = some sm →
                    parsed.headerGet "alg" = .str sm.Alg := by
                  intro sm hsm
                  unfold algMismatch at hmis
                  rw [hsm] at hmis
                  by_contra hc
                  simp [Ne.symm hc] at hmis
                refine ⟨Or.inr ⟨ex, tok, parsed, rfl, hr, hne, hp, halg, hv, ?_, ?_, ?_⟩,
                  ?_, ?_, ?_⟩
                · simp [key]
                · simp [key]
                · simp [key, JWTFromContext_WithValue, Request.WithContext]
                · simp [key]
                · intro hb; exact absurd hb hby
                · intro ex2 hex2 hemp
                  cases hex2
                  rw [hr] at hemp
                  exact absurd hemp hne
      · have key := checkJWT_of_extract_error jwtParse m w r ex tok e hby hex hr
        simp [key, (hfail _ _ _).1]

/-! ## Success, and the presence check -/

/-- C3: on a request that is not let through by the OPTIONS rule and whose extracted
token is non-empty, if the parser returns a token `parsed` with no error, whose header
`alg` equals `Alg()` of the configured signing method and whose `Valid` flag is true,
then `CheckJWT` returns nil, the error handler is not called, the response is untouched,
and `JWTFromContext` on the context of the request returns `parsed` afterwards. -/
theorem checkJWT_valid_token (jwtParse : JwtParse) (m : JWTMiddleware)
    (w : ResponseRecorder) (r : Request) (ex : TokenExtractor) (tok : String)
    (parsed : Token)
    (hby : ¬ bypassed m r)
    (hex : m.Options.Extractor = some ex)
    (hr : ex r = (tok, none)) (hne : tok ≠ "")
    (hp : jwtParse tok m.Options.ValidationKeyGetter = .ok parsed)
    (halg : ∀ sm, m.Options.SigningMethod = some sm → parsed.headerGet "alg" = .str sm.Alg)
    (hv : parsed.Valid = true) :
    (CheckJWT jwtParse m w r).ret = .returned none
      ∧ handlerCalls (CheckJWT jwtParse m w r).trace = []
      ∧ (CheckJWT jwtParse m w r).trace = [.extract, .parse tok]
      ∧ (CheckJWT jwtParse m w r).w = w
      ∧ JWTFromContext (CheckJWT jwtParse m w r).r.ctx = some parsed := by
  have hmis : algMismatch m parsed = none := by
    unfold algMismatch
    cases hsm : m.Options.SigningMethod with
    | none => rfl
    | some sm => simp [halg sm hsm]
  have key := checkJWT_of_parsed jwtParse m w r ex tok parsed hby hex hr hne hp
  simp only [hmis, hv] at key
  rw [key]
  simp [handlerCalls, Request.WithContext, JWTFromContext_WithValue]

/-- C3, at a concrete input: an RS512 token under an RS512 configuration. -/
theorem checkJWT_valid_token_witness :
    JWTFromContext (CheckJWT (parseTo (tokenWith "t" "RS512" true))
        (testMiddleware (extractorOf "t") false false) NewRecorder (NewRequest "POST")).r.ctx
      = some (tokenWith "t" "RS512" true) :=
  (checkJWT_valid_token (parseTo (tokenWith "t" "RS512" true))
    (testMiddleware (extractorOf "t") false false) NewRecorder (NewRequest "POST")
    (extractorOf "t") "t" (tokenWith "t" "RS512" true)
    (by decide) rfl rfl (by decide) rfl
    (by intro sm hsm; cases hsm; decide) rfl).2.2.2.2

/-- C4: on a request that is not let through by the OPTIONS rule and for which the
extractor returns the empty token with no error, if `CredentialsOptional` is false
then `CheckJWT` returns a non-nil error and calls the error handler `h` once, with the
message "Required authorization token not found"; the parser is not called. When `h` is
`OnError`, the body of the response ends with that message and a newline, and the status
is 401 if no header had been written to the response before. -/
theorem checkJWT_required_credentials (jwtParse : JwtParse) (m : JWTMiddleware)
    (w : ResponseRecorder) (r : Request) (ex : TokenExtractor) (h : errorHandler)
    (hby : ¬ bypassed m r)
    (hex : m.Options.Extractor = some ex)
    (hh : m.Options.ErrorHandler = some h)
    (hr : ex r = ("", none))
    (hopt : m.Options.CredentialsOptional = false) :
    CheckJWT jwtParse m w r =
        ⟨.returned (some (.errorf "required authorization token not found")),
          h w r "Required authorization token not found", r,
          [.extract, .handler "Required authorization token not found"]⟩
      ∧ handlerCalls (CheckJWT jwtParse m w r).trace
          = ["Required authorization token not found"]
      ∧ (∀ t, Event.parse t ∉ (CheckJWT jwtParse m w r).trace)
      ∧ (h = OnError →
          (CheckJWT jwtParse m w r).w.Body
              = w.Body ++ ("Required authorization token not found" ++ "\n")
            ∧ (w.wroteHeader = false → (CheckJWT jwtParse m w r).w.Code = 401)) := by
  have key := checkJWT_of_no_token jwtParse m w r ex hby hex hr
  simp only [hopt, failWith, hh] at key
  rw [key]
  refine ⟨rfl, by simp [handlerCalls], by simp, ?_⟩
  intro hO
  subst hO
  refine ⟨?_, ?_⟩
  · rcases w with ⟨code, body, _ | _⟩ <;>
      simp [OnError, httpError, ResponseRecorder.Write, ResponseRecorder.WriteHeader]
  · intro hw
    simp [OnError, httpError, ResponseRecorder.Write, ResponseRecorder.WriteHeader, hw,
      StatusUnauthorized]

/-- C4, at a concrete input: the test RequiredCredentials (no Authorization header). -/
theorem checkJWT_required_credentials_witness :
    (CheckJWT (parseFailing ⟨"unreachable"⟩) (testMiddleware FromAuthHeader false false)
        NewRecorder (NewRequest "POST")).w.Code = 401 :=
  (checkJWT_required_credentials (parseFailing ⟨"unreachable"⟩)
    (testMiddleware FromAuthHeader false false) NewRecorder (NewRequest "POST")
    FromAuthHeader OnError (by decide) rfl rfl (by decide) rfl).2.2.2 rfl |>.2 rfl

/-- C5: when the extractor returns the empty token with no error and
`CredentialsOptional` is true, `CheckJWT` returns nil, calls neither the error handler
nor the parser, and leaves response and request as they were, so that `JWTFromContext`
returns what it returned before the call: nil on a request with a fresh context. -/
theorem checkJWT_optional_credentials (jwtParse : JwtParse) (m : JWTMiddleware)
    (w : ResponseRecorder) (r : Request) (ex : TokenExtractor)
    (hex : m.Options.Extractor = some ex)
    (hr : ex r = ("", none))
    (hopt : m.Options.CredentialsOptional = true) :
    (CheckJWT jwtParse m w r).ret = .returned none
      ∧ handlerCalls (CheckJWT jwtParse m w r).trace = []
      ∧ (∀ t, Event.parse t ∉ (CheckJWT jwtParse m w r).trace)
      ∧ (CheckJWT jwtParse m w r).w = w
      ∧ (CheckJWT jwtParse m w r).r = r
      ∧ JWTFromContext (CheckJWT jwtParse m w r).r.ctx = JWTFromContext r.ctx
      ∧ (r.ctx = [] → JWTFromContext (CheckJWT jwtParse m w r).r.ctx = none) := by
  by_cases hby : bypassed m r
  · rw [checkJWT_of_bypassed jwtParse m w r hby]
    refine ⟨rfl, rfl, by simp, rfl, rfl, rfl, ?_⟩
    intro hc
    simp [hc, JWTFromContext, Context.Value]
  · have key := checkJWT_of_no_token jwtParse m w r ex hby hex hr
    simp only [hopt, if_true] at key
    rw [key]
    refine ⟨rfl, rfl, by simp, rfl, rfl, rfl, ?_⟩
    intro hc
    simp [hc, JWTFromContext, Context.Value]

/-- C5, at a concrete input: the test OptionalCredentials (no Authorization header). -/
theorem checkJWT_optional_credentials_witness :
    (CheckJWT (parseFailing ⟨"unreachable"⟩) (testMiddleware FromAuthHeader true false)
        NewRecorder (NewRequest "POST")).ret = .returned none :=
  (checkJWT_optional_credentials (parseFailing ⟨"unreachable"⟩)
    (testMiddleware FromAuthHeader true false) NewRecorder (NewRequest "POST")
    FromAuthHeader rfl (by decide) rfl).1

/-- C6: with `EnableAuthOnOptions` false, on every request whose method is "OPTIONS",
whatever its headers and query, `CheckJWT` returns nil without calling the extractor, the
parser or the error handler, and leaves response and request as they were. -/
theorem checkJWT_options_bypass (jwtParse : JwtParse) (m : JWTMiddleware)
    (w : ResponseRecorder) (r : Request)
    (hm : r.Method = "OPTIONS")
    (hen : m.Options.EnableAuthOnOptions = false) :
    CheckJWT jwtParse m w r = ⟨.returned none, w, r, []⟩
      ∧ (CheckJWT jwtParse m w r).ret = .returned none
      ∧ (CheckJWT jwtParse m w r).trace = []
      ∧ JWTFromContext (CheckJWT jwtParse m w r).r.ctx = JWTFromContext r.ctx := by
  rw [checkJWT_of_bypassed jwtParse m w r ⟨hen, hm⟩]
  exact ⟨rfl, rfl, rfl, rfl⟩

/-- C6, at a concrete input: an OPTIONS request with a malformed Authorization header. -/
theorem checkJWT_options_bypass_witness :
    (CheckJWT (parseFailing ⟨"bad"⟩) (testMiddleware FromAuthHeader false false) NewRecorder
        ⟨"OPTIONS", [("Authorization", ["bearer 123 456"])], [], []⟩).trace = [] :=
  (checkJWT_options_bypass (parseFailing ⟨"bad"⟩) (testMiddleware FromAuthHeader false false)
    NewRecorder ⟨"OPTIONS", [("Authorization", ["bearer 123 456"])], [], []⟩ rfl rfl).2.2.1

/-! ## OPTIONS requests under `EnableAuthOnOptions` -/

/-- C7: with `EnableAuthOnOptions` true and an extractor that does not read the request
method, `CheckJWT` ends the same way on a request with method "OPTIONS" as on the same
request with any other method: same returned error, same calls with the same messages,
same context afterwards. In particular an OPTIONS request for which the extractor finds no
token is refused when `CredentialsOptional` is false, with status 401 under `OnError` on a
response that no header was written to. -/
theorem checkJWT_options_checked (jwtParse : JwtParse) (m : JWTMiddleware)
    (w : ResponseRecorder) (r : Request) (method : String)
    (hen : m.Options.EnableAuthOnOptions = true)
    (hmeth : ∀ ex, m.Options.Extractor = some ex →
      ∀ (q : Request) (meth : String), ex { q with Method := meth } = ex q) :
    ((CheckJWT jwtParse m w { r with Method := "OPTIONS" }).ret
          = (CheckJWT jwtParse m w { r with Method := method }).ret
      ∧ (CheckJWT jwtParse m w { r with Method := "OPTIONS" }).trace
          = (CheckJWT jwtParse m w { r with Method := method }).trace
      ∧ handlerCalls (CheckJWT jwtParse m w { r with Method := "OPTIONS" }).trace
          = handlerCalls (CheckJWT jwtParse m w { r with Method := method }).trace
      ∧ (CheckJWT jwtParse m w { r with Method := "OPTIONS" }).r.ctx
          = (CheckJWT jwtParse m w { r with Method := method }).r.ctx)
    ∧ (∀ ex, m.Options.Extractor = some ex → ex { r with Method := "OPTIONS" } = ("", none) →
        m.Options.CredentialsOptional = false → m.Options.ErrorHandler = some OnError →
        w.wroteHeader = false →
        (CheckJWT jwtParse m w { r with Method := "OPTIONS" }).ret
            = .returned (some (.errorf "required authorization token not found"))
          ∧ (CheckJWT jwtParse m w { r with Method := "OPTIONS" }).w.Code = 401) := by
  have hnb : ∀ q : Request, ¬ bypassed m q := by
    intro q hq
    rw [hq.1] at hen
    exact Bool.noConfusion hen
  constructor
  · have hc := checkJWT_congr jwtParse m w { r with Method := "OPTIONS" }
      { r with Method := method } (hnb _) (hnb _) rfl
      (fun ex hex => (hmeth ex hex r "OPTIONS").trans (hmeth ex hex r method).symm)
    exact ⟨hc.1, hc.2.1, by rw [hc.2.1], hc.2.2⟩
  · intro ex hex hr hopt hh hw
    have key := checkJWT_of_no_token jwtParse m w { r with Method := "OPTIONS" } ex
      (hnb _) hex hr
    simp only [hopt, failWith, hh, Bool.false_eq_true, if_false] at key
    rw [key]
    refine ⟨rfl, ?_⟩
    dsimp only
    exact onError_code w _ _ hw

/-- C7, at a concrete input: the test OPTIONS/AuthEnabled against the same request sent
with POST. -/
theorem checkJWT_options_checked_witness :
    (CheckJWT (parseFailing ⟨"bad"⟩) (testMiddleware (extractorOf "") false true) NewRecorder
        { NewRequest "GET" with Method := "OPTIONS" }).ret
      = (CheckJWT (parseFailing ⟨"bad"⟩) (testMiddleware (extractorOf "") false true)
        NewRecorder { NewRequest "GET" with Method := "POST" }).ret :=
  (checkJWT_options_checked (parseFailing ⟨"bad"⟩) (testMiddleware (extractorOf "") false true)
    NewRecorder (NewRequest "GET") "POST" rfl
    (by intro ex hex q meth; cases hex; rfl)).1.1

/-! ## The error handler and the next handler -/

/-- C8: in one invocation `CheckJWT` calls the error handler exactly once when it returns
a non-nil error, and not at all when it returns nil (nor when it panics); so never more
than once. -/
theorem checkJWT_handler_called_once (jwtParse : JwtParse) (m : JWTMiddleware)
    (w : ResponseRecorder) (r : Request) :
    (match (CheckJWT jwtParse m w r).ret with
      | .returned (some _) => (handlerCalls (CheckJWT jwtParse m w r).trace).length = 1
      | .returned none => (handlerCalls (CheckJWT jwtParse m w r).trace).length = 0
      | .panicked => (handlerCalls (CheckJWT jwtParse m w r).trace).length = 0)
    ∧ (handlerCalls (CheckJWT jwtParse m w r).trace).length ≤ 1 := by
  rcases checkJWT_shape jwtParse m w r with ⟨tr, key, hh, _⟩ | ⟨tr, key, hh, _⟩
    | ⟨h, msg, err, tr, _, key, hh, _⟩ | ⟨parsed, tr, key, hh, _⟩
  · rw [key]; simp [hh]
  · rw [key]; simp [hh]
  · rw [key]; simp [handlerCalls_append, hh, handlerCalls]
  · rw [key]; simp [hh]

/-- C9: the handler `m.Handler()(next)` calls `next.ServeHTTP` exactly once, with the
response and the request as `CheckJWT` left them, when `CheckJWT` returns nil, and does
not call it when `CheckJWT` returns a non-nil error (or panics). When `CheckJWT` accepts
a token `parsed`, the request that `next` receives carries `parsed` in its context. -/
theorem handler_calls_next (jwtParse : JwtParse) (m : JWTMiddleware) (next : HttpHandler)
    (w : ResponseRecorder) (r : Request) :
    (match (CheckJWT jwtParse m w r).ret with
      | .returned none =>
          nextCalls (Handler jwtParse m next w r).trace = [(CheckJWT jwtParse m w r).r]
          ∧ (Handler jwtParse m next w r).w
              = next (CheckJWT jwtParse m w r).w (CheckJWT jwtParse m w r).r
      | .returned (some _) =>
          nextCalls (Handler jwtParse m next w r).trace = []
          ∧ (Handler jwtParse m next w r).w = (CheckJWT jwtParse m w r).w
      | .panicked => nextCalls (Handler jwtParse m next w r).trace = [])
    ∧ (∀ ex tok parsed, ¬ bypassed m r → m.Options.Extractor = some ex →
        ex r = (tok, none) → tok ≠ "" →
        jwtParse tok m.Options.ValidationKeyGetter = .ok parsed →
        (∀ sm, m.Options.SigningMethod = some sm → parsed.headerGet "alg" = .str sm.Alg) →
        parsed.Valid = true →
        ∃ q, nextCalls (Handler jwtParse m next w r).trace = [q]
          ∧ JWTFromContext q.ctx = some parsed) := by
  constructor
  · rcases checkJWT_shape jwtParse m w r with ⟨tr, key, _, hn⟩ | ⟨tr, key, _, hn⟩
      | ⟨h, msg, err, tr, _, key, _, hn⟩ | ⟨parsed, tr, key, _, hn⟩
    · simp [Handler, key, nextCalls_append, hn, nextCalls]
    · simp [Handler, key, hn]
    · simp [Handler, key, nextCalls_append, hn, nextCalls]
    · simp [Handler, key, nextCalls_append, hn, nextCalls]
  · intro ex tok parsed hby hex hr hne hp halg hv
    have hmis : algMismatch m parsed = none := by
      unfold algMismatch
      cases hsm : m.Options.SigningMethod with
      | none => rfl
      | some sm => simp [halg sm hsm]
    have key := checkJWT_of_parsed jwtParse m w r ex tok parsed hby hex hr hne hp
    simp only [hmis, hv] at key
    refine ⟨r.WithContext (r.ctx.WithValue .jwtContextKey (.token parsed)), ?_, ?_⟩
    · simp [Handler, key, nextCalls]
    · simp [Request.WithContext, JWTFromContext_WithValue]

/-- C9, at a concrete input: an accepted RS512 token; the next handler is called once,
with a request that carries the token. -/
theorem handler_calls_next_witness :
    ∃ q, nextCalls (Handler (parseTo (tokenWith "t" "RS512" true))
          (testMiddleware (extractorOf "t") false false) okHandler NewRecorder
          (NewRequest "POST")).trace = [q]
      ∧ JWTFromContext q.ctx = some (tokenWith "t" "RS512" true) :=
  (handler_calls_next (parseTo (tokenWith "t" "RS512" true))
    (testMiddleware (extractorOf "t") false false) okHandler NewRecorder
    (NewRequest "POST")).2 (extractorOf "t") "t" (tokenWith "t" "RS512" true)
    (by decide) rfl rfl (by decide) rfl (by intro sm hsm; cases hsm; decide) rfl

/-! ## Extraction errors -/

/-- C10: on a request that is not let through by the OPTIONS rule and for which the
extractor returns a non-nil error `e`, `CheckJWT` returns the error that wraps `e` under
"error extracting token", calls the error handler once, with the text of `e`, does not
call the parser and leaves the request as it was, whatever `CredentialsOptional` is.
`FromAuthHeader` returns such an error on a request whose Authorization header is
"123". -/
theorem checkJWT_extract_error (jwtParse : JwtParse) (m : JWTMiddleware)
    (w : ResponseRecorder) (r : Request) (ex : TokenExtractor) (h : errorHandler)
    (tok : String) (e : GoError)
    (hby : ¬ bypassed m r)
    (hex : m.Options.Extractor = some ex)
    (hh : m.Options.ErrorHandler = some h)
    (hr : ex r = (tok, some e)) :
    CheckJWT jwtParse m w r =
        ⟨.returned (some (.wrap e "error extracting token")), h w r e.text, r,
          [.extract, .handler e.text]⟩
      ∧ handlerCalls (CheckJWT jwtParse m w r).trace = [e.text]
      ∧ (∀ t, Event.parse t ∉ (CheckJWT jwtParse m w r).trace)
      ∧ JWTFromContext (CheckJWT jwtParse m w r).r.ctx = JWTFromContext r.ctx
      ∧ (∀ q : Request, valuesGet q.Header "Authorization" = "123" →
          ∃ e0, FromAuthHeader q = ("", some e0)) := by
  have key := checkJWT_of_extract_error jwtParse m w r ex tok e hby hex hr
  simp only [failWith, hh] at key
  rw [key]
  refine ⟨rfl, by simp [handlerCalls], by simp, rfl, ?_⟩
  intro q hq
  refine ⟨⟨"authorization header format must be Bearer \x7btoken\x7d"⟩, ?_⟩
  unfold FromAuthHeader
  simp only [hq]
  decide

/-- C10, at a concrete input: the test InValidToken (Authorization header "123"), with
optional credentials. -/
theorem checkJWT_extract_error_witness :
    (CheckJWT (parseFailing ⟨"unreachable"⟩) (testMiddleware FromAuthHeader true false)
        NewRecorder ⟨"POST", [("Authorization", ["123"])], [], []⟩).ret
      = .returned (some (.wrap ⟨"authorization header format must be Bearer \x7btoken\x7d"⟩
          "error extracting token")) :=
  congrArg Result.ret
    (checkJWT_extract_error (parseFailing ⟨"unreachable"⟩)
      (testMiddleware FromAuthHeader true false) NewRecorder
      ⟨"POST", [("Authorization", ["123"])], [], []⟩ FromAuthHeader OnError ""
      ⟨"authorization header format must be Bearer \x7btoken\x7d"⟩
      (by decide) rfl rfl (by decide)).1

/-! ## Parse errors and the validity check -/

/-- C11: on a request that is not let through by the OPTIONS rule and whose extracted
token is non-empty, if the parser returns an error `e`, `CheckJWT` returns the error that
wraps `e` under "error parsing token", calls the error handler once, with the text of `e`,
and leaves the request as it was. Neither the algorithm nor the validity message is
produced: the result does not depend on the signing method. -/
theorem checkJWT_parse_error (jwtParse : JwtParse) (m : JWTMiddleware)
    (w : ResponseRecorder) (r : Request) (ex : TokenExtractor) (h : errorHandler)
    (tok : String) (e : GoError)
    (hby : ¬ bypassed m r)
    (hex : m.Options.Extractor = some ex)
    (hh : m.Options.ErrorHandler = some h)
    (hr : ex r = (tok, none)) (hne : tok ≠ "")
    (hp : jwtParse tok m.Options.ValidationKeyGetter = .fail e) :
    CheckJWT jwtParse m w r =
        ⟨.returned (some (.wrap e "error parsing token")), h w r e.text, r,
          [.extract, .parse tok, .handler e.text]⟩
      ∧ handlerCalls (CheckJWT jwtParse m w r).trace = [e.text]
      ∧ (CheckJWT jwtParse m w r).r = r
      ∧ JWTFromContext (CheckJWT jwtParse m w r).r.ctx = JWTFromContext r.ctx := by
  have key := checkJWT_of_parse_error jwtParse m w r ex tok e hby hex hr hne hp
  simp only [failWith, hh] at key
  rw [key]
  exact ⟨rfl, by simp [handlerCalls], rfl, rfl⟩

/-- C11, at a concrete input: the parser refuses the token "t". -/
theorem checkJWT_parse_error_witness :
    (CheckJWT (parseFailing ⟨"token contains an invalid number of segments"⟩)
        (testMiddleware (extractorOf "t") false false) NewRecorder (NewRequest "POST")).ret
      = .returned (some (.wrap ⟨"token contains an invalid number of segments"⟩
          "error parsing token")) :=
  congrArg Result.ret
    (checkJWT_parse_error (parseFailing ⟨"token contains an invalid number of segments"⟩)
      (testMiddleware (extractorOf "t") false false) NewRecorder (NewRequest "POST")
      (extractorOf "t") OnError "t" ⟨"token contains an invalid number of segments"⟩
      (by decide) rfl rfl rfl (by decide) rfl).1

/-- C12: on a request that is not let through by the OPTIONS rule and whose extracted
token is non-empty and parses without error, with a header `alg` equal to `Alg()` of the
configured signing method, if the `Valid` flag of the parsed token is false then `CheckJWT`
returns a non-nil error, calls the error handler once, with the message
"The token is not valid", and leaves the request as it was. -/
theorem checkJWT_invalid_token (jwtParse : JwtParse) (m : JWTMiddleware)
    (w : ResponseRecorder) (r : Request) (ex : TokenExtractor) (h : errorHandler)
    (tok : String) (parsed : Token)
    (hby : ¬ bypassed m r)
    (hex : m.Options.Extractor = some ex)
    (hh : m.Options.ErrorHandler = some h)
    (hr : ex r = (tok, none)) (hne : tok ≠ "")
    (hp : jwtParse tok m.Options.ValidationKeyGetter = .ok parsed)
    (halg : ∀ sm, m.Options.SigningMethod = some sm → parsed.headerGet "alg" = .str sm.Alg)
    (hv : parsed.Valid = false) :
    CheckJWT jwtParse m w r =
        ⟨.returned (some (.errorf "invalid token")), h w r "The token is not valid", r,
          [.extract, .parse tok, .handler "The token is not valid"]⟩
      ∧ (∃ e, (CheckJWT jwtParse m w r).ret = .returned (some e))
      ∧ handlerCalls (CheckJWT jwtParse m w r).trace = ["The token is not valid"]
      ∧ (CheckJWT jwtParse m w r).r = r
      ∧ JWTFromContext (CheckJWT jwtParse m w r).r.ctx = JWTFromContext r.ctx := by
  have hmis : algMismatch m parsed = none := by
    unfold algMismatch
    cases hsm : m.Options.SigningMethod with
    | none => rfl
    | some sm => simp [halg sm hsm]
  have key := checkJWT_of_parsed jwtParse m w r ex tok parsed hby hex hr hne hp
  simp only [hmis, hv, failWith, hh, Bool.not_false, if_true] at key
  rw [key]
  exact ⟨rfl, ⟨_, rfl⟩, by simp [handlerCalls], rfl, rfl⟩

/-- C12, at a concrete input: an RS512 token that the parser marked invalid. -/
theorem checkJWT_invalid_token_witness :
    (CheckJWT (parseTo (tokenWith "t" "RS512" false))
        (testMiddleware (extractorOf "t") false false) NewRecorder (NewRequest "POST")).ret
      = .returned (some (.errorf "invalid token")) :=
  congrArg Result.ret
    (checkJWT_invalid_token (parseTo (tokenWith "t" "RS512" false))
      (testMiddleware (extractorOf "t") false false) NewRecorder (NewRequest "POST")
      (extractorOf "t") OnError "t" (tokenWith "t" "RS512" false)
      (by decide) rfl rfl rfl (by decide) rfl
      (by intro sm hsm; cases hsm; decide) rfl).1

/-! ## Construction -/

/-- C13: `NewJWTMiddleware` panics, with "signing method must be set", exactly when it is
called with no options or with a first option whose `SigningMethod` is nil. Otherwise it
returns the middleware whose options are the first option with a nil `ErrorHandler`
replaced by `OnError` and a nil `Extractor` by `FromAuthHeader`; so a returned middleware
has a signing method, an extractor and an error handler. The options after the first do
not matter. -/
theorem newJWTMiddleware_spec (options : List JWTOptions) :
    (NewJWTMiddleware options = .error "signing method must be set"
        ↔ options = [] ∨ ∃ first rest, options = first :: rest ∧ first.SigningMethod = none)
    ∧ ((∃ msg, NewJWTMiddleware options = .error msg)
        ↔ options = [] ∨ ∃ first rest, options = first :: rest ∧ first.SigningMethod = none)
    ∧ (∀ first rest sm, options = first :: rest → first.SigningMethod = some sm →
        NewJWTMiddleware options
          = .ok ⟨⟨first.ValidationKeyGetter, first.CredentialsOptional,
              some (first.ErrorHandler.getD OnError),
              some (first.Extractor.getD FromAuthHeader),
              first.EnableAuthOnOptions, some sm⟩⟩)
    ∧ (∀ m, NewJWTMiddleware options = .ok m →
        m.Options.SigningMethod ≠ none ∧ m.Options.Extractor ≠ none
          ∧ m.Options.ErrorHandler ≠ none)
    ∧ (∀ first rest, options = first :: rest →
        NewJWTMiddleware options = NewJWTMiddleware [first]) := by
  have hnil : NewJWTMiddleware [] = .error "signing method must be set" := rfl
  have hcons : ∀ (first : JWTOptions) (rest : List JWTOptions),
      NewJWTMiddleware (first :: rest)
        = match first.SigningMethod with
          | none => .error "signing method must be set"
          | some sm => .ok ⟨⟨first.ValidationKeyGetter, first.CredentialsOptional,
              some (first.ErrorHandler.getD OnError),
              some (first.Extractor.getD FromAuthHeader),
              first.EnableAuthOnOptions, some sm⟩⟩ := by
    intro first rest
    rcases first with ⟨kg, co, eh, ex, ea, sm⟩
    cases eh <;> cases ex <;> cases sm <;> rfl
  cases options with
  | nil =>
    refine ⟨by simp [hnil], by simp [hnil], by simp, ?_, by simp⟩
    intro m hm
    rw [hnil] at hm
    cases hm
  | cons first rest =>
    rw [hcons first rest]
    cases hsm : first.SigningMethod with
    | none =>
      refine ⟨by simp [hsm], by simp [hsm], ?_, ?_, ?_⟩
      · intro f r sm hfr hs
        cases hfr
        rw [hsm] at hs
        cases hs
      · intro m hm
        cases hm
      · intro f r hfr
        cases hfr
        rw [hcons first [], hsm]
    | some sm =>
      refine ⟨by simp [hsm], by simp [hsm], ?_, ?_, ?_⟩
      · intro f r sm2 hfr hs
        cases hfr
        rw [hsm] at hs
        cases hs
        rfl
      · intro m hm
        cases hm
        simp
      · intro f r hfr
        cases hfr
        rw [hcons first [], hsm]

/-! ## The extractors -/

/-- C14: `FromFirst(exs...)(r)` is the outcome of scanning `exs` in order. With no
extractors, or when every extractor returns the empty token and no error, it returns the
empty token and no error. When the extractors before `d` all return the empty token and
no error and `d` returns an error, it returns the empty token with that error; when `d`
returns a non-empty token and no error, it returns that token. In both cases exactly the
extractors up to `d` are called, whatever follows `d`. -/
theorem fromFirst_spec (r : Request) (exs : List TokenExtractor) :
    FromFirst [] r = ("", none)
    ∧ FromFirst exs r = firstDeciding r exs
    ∧ ((∀ ex ∈ exs, ex r = ("", none)) → FromFirst exs r = ("", none))
    ∧ (∀ pre d post tok e, exs = pre ++ d :: post → (∀ ex ∈ pre, ex r = ("", none)) →
        d r = (tok, some e) →
        FromFirst exs r = ("", some e) ∧ (fromFirstLoop r exs).2 = pre.length + 1)
    ∧ (∀ pre d post tok, exs = pre ++ d :: post → (∀ ex ∈ pre, ex r = ("", none)) →
        d r = (tok, none) → tok ≠ "" →
        FromFirst exs r = (tok, none) ∧ (fromFirstLoop r exs).2 = pre.length + 1)
    ∧ (∀ (A B : TokenExtractor) tok, A r = (tok, none) → tok ≠ "" →
        FromFirst [A, B] r = (tok, none) ∧ (fromFirstLoop r [A, B]).2 = 1)
    ∧ (∀ (A B : TokenExtractor) tok e, A r = (tok, some e) →
        FromFirst [A, B] r = ("", some e) ∧ (fromFirstLoop r [A, B]).2 = 1)
    ∧ (∀ (A B : TokenExtractor), A r = ("", none) → FromFirst [A, B] r = FromFirst [B] r) := by
  have hskip : ∀ (pre rest : List TokenExtractor), (∀ ex ∈ pre, ex r = ("", none)) →
      fromFirstLoop r (pre ++ rest)
        = ((fromFirstLoop r rest).1, (fromFirstLoop r rest).2 + pre.length) := by
    intro pre rest hpre
    induction pre with
    | nil => rfl
    | cons p ps ih =>
      have hp := hpre p (List.mem_cons_self _ _)
      have ih2 := ih (fun ex hex => hpre ex (List.mem_cons_of_mem _ hex))
      rw [List.cons_append]
      simp only [fromFirstLoop, hp, List.length_cons]
      rw [ih2]
      simp [Nat.add_assoc]
  refine ⟨rfl, ?_, ?_, ?_, ?_, ?_, ?_, ?_⟩
  · unfold FromFirst
    induction exs with
    | nil => rfl
    | cons ex rest ih =>
      rcases hr : ex r with ⟨tok, _ | e⟩
      · by_cases hne : tok = ""
        · subst hne
          simp only [fromFirstLoop, hr, firstDeciding, List.find?]
          simpa [firstDeciding] using ih
        · simp [fromFirstLoop, hr, firstDeciding, List.find?, hne]
      · simp [fromFirstLoop, hr, firstDeciding, List.find?]
  · intro hall
    have := hskip exs [] hall
    rw [List.append_nil] at this
    unfold FromFirst
    rw [this]
    rfl
  · intro pre d post tok e hexs hpre hd
    subst hexs
    unfold FromFirst
    rw [hskip pre (d :: post) hpre]
    simp [fromFirstLoop, hd, Nat.add_comm]
  · intro pre d post tok hexs hpre hd hne
    subst hexs
    unfold FromFirst
    rw [hskip pre (d :: post) hpre]
    simp [fromFirstLoop, hd, hne, Nat.add_comm]
  · intro A B tok hA hne
    simp [FromFirst, fromFirstLoop, hA, hne]
  · intro A B tok e hA
    simp [FromFirst, fromFirstLoop, hA]
  · intro A B hA
    simp [FromFirst, fromFirstLoop, hA]

/-- C15: when the Authorization header is a scheme that lower-cases to "bearer", one
space, and a non-empty token without white space, `FromAuthHeader` returns that token,
unchanged, and no error. -/
theorem fromAuthHeader_bearer (r : Request) (scheme tok : String)
    (hscheme : ToLower scheme = "bearer")
    (hne : tok ≠ "")
    (hws : ∀ c ∈ tok.toList, isSpace c = false)
    (hhdr : valuesGet r.Header "Authorization" = scheme ++ " " ++ tok) :
    FromAuthHeader r = (tok, none) := by
  obtain ⟨hs1, hs2⟩ := scheme_of_toLower scheme hscheme
  have ht : tok.toList ≠ [] := by
    intro h
    exact hne (String.ext h)
  have hfields : Fields (scheme ++ " " ++ tok) = [scheme, tok] := by
    unfold Fields
    have hl : (scheme ++ " " ++ tok).toList = scheme.toList ++ ' ' :: tok.toList := by
      simp [String.toList, String.data_append]
    rw [hl, fields_two scheme.toList tok.toList hs1 ht hs2 hws]
    rfl
  have hnonempty : scheme ++ " " ++ tok ≠ "" := by
    intro h
    have := congrArg String.data h
    simp [String.data_append] at this
  unfold FromAuthHeader
  simp only [hhdr, hnonempty, if_false, hfields, hscheme]
  simp

/-- C15, at a concrete input: the scheme "BEARER" and the token "aB.c-D_9". -/
theorem fromAuthHeader_bearer_witness :
    FromAuthHeader ⟨"GET", [("Authorization", ["BEARER aB.c-D_9"])], [], []⟩
      = ("aB.c-D_9", none) :=
  fromAuthHeader_bearer ⟨"GET", [("Authorization", ["BEARER aB.c-D_9"])], [], []⟩
    "BEARER" "aB.c-D_9" (by decide) (by decide) (by decide) (by decide)

/-- C16: when the Authorization header is non-empty and either does not split into
exactly two fields or has a first field that does not lower-case to "bearer",
`FromAuthHeader` returns the empty token and a non-nil error. -/
theorem fromAuthHeader_malformed (r : Request)
    (hne : valuesGet r.Header "Authorization" ≠ "")
    (hbad : (Fields (valuesGet r.Header "Authorization")).length ≠ 2
      ∨ ∃ first, (Fields (valuesGet r.Header "Authorization")).head? = some first
          ∧ ToLower first ≠ "bearer") :
    FromAuthHeader r
        = ("", some ⟨"authorization header format must be Bearer \x7btoken\x7d"⟩)
      ∧ ∃ e, FromAuthHeader r = ("", some e) := by
  have key : FromAuthHeader r
      = ("", some ⟨"authorization header format must be Bearer \x7btoken\x7d"⟩) := by
    unfold FromAuthHeader
    simp only [hne, if_false]
    rcases hf : Fields (valuesGet r.Header "Authorization") with _ | ⟨a, _ | ⟨b, _ | ⟨c, l⟩⟩⟩
    · rfl
    · rfl
    · rw [hf] at hbad
      rcases hbad with h | ⟨first, h1, h2⟩
      · exact absurd rfl h
      · simp only [List.head?_cons, Option.some.injEq] at h1
        subst h1
        simp [h2]
    · rfl
  exact ⟨key, _, key⟩

/-- C16, at concrete inputs: the headers "bearer", "bearer 123 456" and "Basic abc". -/
theorem fromAuthHeader_malformed_witness :
    (∃ e, FromAuthHeader ⟨"GET", [("Authorization", ["bearer"])], [], []⟩ = ("", some e))
    ∧ (∃ e, FromAuthHeader ⟨"GET", [("Authorization", ["bearer 123 456"])], [], []⟩
        = ("", some e))
    ∧ (∃ e, FromAuthHeader ⟨"GET", [("Authorization", ["Basic abc"])], [], []⟩
        = ("", some e)) :=
  ⟨(fromAuthHeader_malformed ⟨"GET", [("Authorization", ["bearer"])], [], []⟩
      (by decide) (Or.inl (by decide))).2,
    (fromAuthHeader_malformed ⟨"GET", [("Authorization", ["bearer 123 456"])], [], []⟩
      (by decide) (Or.inl (by decide))).2,
    (fromAuthHeader_malformed ⟨"GET", [("Authorization", ["Basic abc"])], [], []⟩
      (by decide) (Or.inr ⟨"Basic", by decide, by decide⟩)).2⟩

/-- C17: `FromAuthHeader` returns the empty token and no error exactly when the
Authorization header is absent or empty. On a non-empty header it returns either an
error, or no error and a token that is non-empty and free of white space; a header of
white space only gives an error. -/
theorem fromAuthHeader_no_token_iff (r : Request) :
    (FromAuthHeader r = ("", none) ↔ valuesGet r.Header "Authorization" = "")
    ∧ (valuesGet r.Header "Authorization" = ""
        ↔ r.Header.lookup "Authorization" = none
          ∨ r.Header.lookup "Authorization" = some []
          ∨ ∃ vs, r.Header.lookup "Authorization" = some ("" :: vs))
    ∧ (valuesGet r.Header "Authorization" ≠ "" →
        (∃ e, FromAuthHeader r = ("", some e))
        ∨ ∃ tok, FromAuthHeader r = (tok, none) ∧ tok ≠ ""
            ∧ ∀ c ∈ tok.toList, isSpace c = false)
    ∧ (valuesGet r.Header "Authorization" ≠ "" →
        (∀ c ∈ (valuesGet r.Header "Authorization").toList, isSpace c = true) →
        ∃ e, FromAuthHeader r = ("", some e)) := by
  have hdich : valuesGet r.Header "Authorization" ≠ "" →
      (∃ e, FromAuthHeader r = ("", some e))
      ∨ ∃ tok, FromAuthHeader r = (tok, none) ∧ tok ≠ ""
          ∧ ∀ c ∈ tok.toList, isSpace c = false := by
    intro hne
    have hmem := fieldsAux_mem (valuesGet r.Header "Authorization").toList [] (by simp)
    unfold FromAuthHeader
    simp only [hne, if_false]
    rcases hf : Fields (valuesGet r.Header "Authorization") with _ | ⟨a, _ | ⟨b, _ | ⟨c, l⟩⟩⟩
    · exact Or.inl ⟨_, rfl⟩
    · exact Or.inl ⟨_, rfl⟩
    · by_cases hb : ToLower a = "bearer"
      · refine Or.inr ⟨b, by simp [hb], ?_⟩
        unfold Fields at hf
        exact hmem b (by rw [hf]; simp)
      · exact Or.inl ⟨⟨"authorization header format must be Bearer \x7btoken\x7d"⟩,
          by simp [hb]⟩
    · exact Or.inl ⟨_, rfl⟩
  refine ⟨?_, ?_, hdich, ?_⟩
  · constructor
    · intro h
      by_contra hne
      rcases hdich hne with ⟨e, he⟩ | ⟨tok, ht, htne, _⟩
      · rw [h] at he
        cases he
      · rw [h] at ht
        cases ht
        exact htne rfl
    · intro h
      unfold FromAuthHeader
      simp [h]
  · unfold valuesGet
    rcases hl : r.Header.lookup "Authorization" with _ | (_ | ⟨v, vs⟩)
    · simp
    · simp
    · simp
  · intro hne hall
    have hnil : ∀ (cs : List Char), (∀ c ∈ cs, isSpace c = true) → fieldsAux cs [] = [] := by
      intro cs
      induction cs with
      | nil => intro _; rfl
      | cons x xs ih =>
        intro h
        have hx := h x (List.mem_cons_self _ _)
        simp only [fieldsAux, hx, if_true]
        exact ih (fun c hc => h c (List.mem_cons_of_mem _ hc))
    have hf : Fields (valuesGet r.Header "Authorization") = [] := hnil _ hall
    unfold FromAuthHeader
    simp only [hne, if_false, hf]
    exact ⟨_, rfl⟩

/-- C18: the extractor `FromParameter(name)` returns no error and the first value of the
query parameter `name`; the empty string when the query has no such parameter. -/
theorem fromParameter_spec (param : String) (r : Request) :
    (FromParameter param r).2 = none
    ∧ (FromParameter param r).1 = valuesGet r.Query param
    ∧ (r.Query.lookup param = none → FromParameter param r = ("", none))
    ∧ (∀ v vs, r.Query.lookup param = some (v :: vs) → FromParameter param r = (v, none))
    ∧ FromParameter "token" ⟨"GET", [], [("token", ["123"])], []⟩ = ("123", none)
    ∧ FromParameter "token" ⟨"GET", [], [], []⟩ = ("", none) := by
  refine ⟨rfl, rfl, ?_, ?_, by decide, by decide⟩
  · intro h
    simp [FromParameter, valuesGet, h]
  · intro v vs h
    simp [FromParameter, valuesGet, h]

/-- C14, at a concrete input: the test TestFromFirst; the parameter extractor finds
nothing, the header extractor finds "123". -/
theorem fromFirst_spec_witness :
    FromFirst [FromParameter "token", FromAuthHeader]
        ⟨"GET", [("Authorization", ["bearer 123"])], [], []⟩ = ("123", none) :=
  ((fromFirst_spec ⟨"GET", [("Authorization", ["bearer 123"])], [], []⟩
      [FromParameter "token", FromAuthHeader]).2.2.2.2.1
    [FromParameter "token"] FromAuthHeader [] "123" rfl (by decide) (by decide)
    (by decide)).1

/-! ## `crypto`: the round trip of `Encrypt` and `Decrypt` -/

/-- C19: for every plaintext (of bytes), every key of 16, 24 or 32 bytes and every
initialization vector of 16 bytes read from the random source, `Encrypt` succeeds with a
ciphertext that starts with the vector and has 16 bytes more than the base64 encoding
of the plaintext, and `Decrypt` of that ciphertext under the same key succeeds and
returns the plaintext. -/
theorem decrypt_encrypt (aes : Bytes → Block) (value secretKey iv : Bytes)
    (hvalue : ∀ x ∈ value, x < 256)
    (hkey : secretKey.length = 16 ∨ secretKey.length = 24 ∨ secretKey.length = 32)
    (hiv : iv.length = aesBlockSize) :
    ∃ c, Encrypt aes (.ok iv) value secretKey = .ok c
      ∧ c.length = 16 + (base64Encode value).length
      ∧ c.length = 16 + 4 * ((value.length + 2) / 3)
      ∧ c.take 16 = iv
      ∧ Decrypt aes c secretKey = .ok value := by
  have hiv16 : iv.length = 16 := hiv
  refine ⟨iv ++ cfbEncrypt (aes secretKey) iv (base64Encode value), ?_, ?_, ?_, ?_, ?_⟩
  · simp [Encrypt, aesNewCipher, hkey]
  · simp [cfbEncrypt_length, hiv16]
  · simp [cfbEncrypt_length, hiv16, base64Encode_length]
  · rw [← hiv16]
    exact List.take_left _ _
  · have hlen : ¬ (iv ++ cfbEncrypt (aes secretKey) iv (base64Encode value)).length
        < aesBlockSize := by
      simp [hiv]
    have htake : (iv ++ cfbEncrypt (aes secretKey) iv (base64Encode value)).take aesBlockSize
        = iv := by
      rw [← hiv]
      exact List.take_left _ _
    have hdrop : (iv ++ cfbEncrypt (aes secretKey) iv (base64Encode value)).drop aesBlockSize
        = cfbEncrypt (aes secretKey) iv (base64Encode value) := by
      rw [← hiv]
      exact List.drop_left _ _
    simp only [Decrypt, aesNewCipher, hkey, if_true, hlen, if_false, htake, hdrop,
      cfbDecrypt_cfbEncrypt, base64Decode, base64Encode_filter]
    exact decodeQuanta_base64Encode value hvalue

/-- C19, at a concrete input: the plaintext "foo" of the tests, a key of 32 bytes and the
vector 0, 1, ..., 15. -/
theorem decrypt_encrypt_witness :
    ∃ c, Encrypt toyCipher (.ok (List.range 16)) [102, 111, 111] (List.replicate 32 7) = .ok c
      ∧ c.length = 16 + (base64Encode [102, 111, 111]).length
      ∧ c.length = 16 + 4 * ((([102, 111, 111] : Bytes).length + 2) / 3)
      ∧ c.take 16 = List.range 16
      ∧ Decrypt toyCipher c (List.replicate 32 7) = .ok [102, 111, 111] :=
  decrypt_encrypt toyCipher [102, 111, 111] (List.replicate 32 7) (List.range 16)
    (by decide) (by decide) (by decide)

/-! ## `slice`: `SafeStringCut` -/

/-- C20: for a length `n ≥ 0`, `SafeStringCut(s, n)` returns the first `min(len(s), n)`
bytes of `s`: `s` itself when `len(s) ≤ n`, its first `n` bytes when `len(s) > n`. The
result is a prefix of `s` of at most `n` bytes, and cutting it again at `n` leaves it
unchanged. -/
theorem safeStringCut_take (s : Bytes) (length : Int) (hlen : 0 ≤ length) :
    SafeStringCut s length = .ok (s.take (min s.length length.toNat))
    ∧ ((s.length : Int) ≤ length → SafeStringCut s length = .ok s)
    ∧ (length < (s.length : Int) → SafeStringCut s length = .ok (s.take length.toNat))
    ∧ (∀ out, SafeStringCut s length = .ok out →
        (out.length : Int) ≤ length ∧ out <+: s ∧ SafeStringCut out length = .ok out) := by
  obtain ⟨n, rfl⟩ := Int.eq_ofNat_of_zero_le hlen
  have hneg : ¬ ((n : Int) < 0) := by omega
  have key : SafeStringCut s n = .ok (s.take (min s.length n)) := by
    unfold SafeStringCut
    by_cases h : s.length < n
    · have h1 : (s.length : Int) < (n : Int) := by exact_mod_cast h
      simp only [h1, if_true]
      rw [Nat.min_eq_left (Nat.le_of_lt h), List.take_length]
    · have h1 : ¬ ((s.length : Int) < (n : Int)) := by exact_mod_cast h
      simp only [h1, if_false, hneg, Int.toNat_ofNat]
      rw [Nat.min_eq_right (Nat.le_of_not_lt h)]
  refine ⟨by simpa using key, ?_, ?_, ?_⟩
  · intro h
    have h1 : s.length ≤ n := by exact_mod_cast h
    rw [key, Nat.min_eq_left h1, List.take_length]
  · intro h
    have h1 : n < s.length := by exact_mod_cast h
    rw [key, Nat.min_eq_right (Nat.le_of_lt h1)]
    simp
  · intro out hout
    rw [key] at hout
    cases hout
    have hl : (s.take (min s.length n)).length ≤ n := by
      rw [List.length_take]
      omega
    refine ⟨by exact_mod_cast hl, List.take_prefix _ _, ?_⟩
    unfold SafeStringCut
    by_cases h : (s.take (min s.length n)).length < n
    · have h1 : (((s.take (min s.length n)).length : Nat) : Int) < (n : Int) := by
        exact_mod_cast h
      simp only [h1, if_true]
    · have h1 : ¬ ((((s.take (min s.length n)).length : Nat) : Int) < (n : Int)) := by
        exact_mod_cast h
      simp only [h1, if_false, hneg, Int.toNat_ofNat]
      congr 1
      apply List.take_of_length_le
      exact hl

/-- C20, at the inputs of the tests: "123", "12345" and "1234", cut at 4. -/
theorem safeStringCut_take_witness :
    SafeStringCut [49, 50, 51] 4 = .ok [49, 50, 51]
    ∧ SafeStringCut [49, 50, 51, 52, 53] 4 = .ok [49, 50, 51, 52]
    ∧ SafeStringCut [49, 50, 51, 52] 4 = .ok [49, 50, 51, 52] :=
  ⟨(safeStringCut_take [49, 50, 51] 4 (by decide)).2.1 (by decide),
    (safeStringCut_take [49, 50, 51, 52, 53] 4 (by decide)).2.2.1 (by decide),
    (safeStringCut_take [49, 50, 51, 52] 4 (by decide)).2.1 (by decide)⟩

/-- C21 does not hold of the code for a negative length: the test `len(s) < length` fails,
`s[:length]` is reached with a bound below 0, and `SafeStringCut` panics instead of
returning a string; so on "123" and -1, and on every string with every negative length.
With a length of 0 or more, also one greater than `len(s)`, a string is returned. -/
theorem safeStringCut_negative_panics :
    SafeStringCut [49, 50, 51] (-1) = .error "slice bounds out of range"
    ∧ (∀ (s : Bytes) (length : Int), length < 0 →
        SafeStringCut s length = .error "slice bounds out of range")
    ∧ (∀ (s : Bytes) (length : Int), 0 ≤ length →
        ∃ out, SafeStringCut s length = .ok out) := by
  refine ⟨by simp [SafeStringCut], ?_, ?_⟩
  · intro s length hneg
    have h1 : ¬ ((s.length : Int) < length) := by omega
    simp [SafeStringCut, h1, hneg]
  · intro s length hpos
    have h2 : ¬ (length < 0) := by omega
    unfold SafeStringCut
    by_cases h1 : (s.length : Int) < length
    · exact ⟨s, by simp [h1]⟩
    · exact ⟨s.take length.toNat, by simp [h1, h2]⟩

end Eli
